import Mathlib

/-!
Verification of the cresp workflow engine core against its specification.

The Python sources under cresp/core are shallowly embedded:

* Paths (pathlib.Path values) are modelled by PyPath: an absolute flag plus a
  list of canonical components (each nonempty and separator-free), so that the
  string of the path contains a separator exactly when the path is absolute or
  has at least two components.
* The filesystem is an oracle FS giving each path its kind (file / directory /
  absent), the result of hashing it with a given method (ok digest, or error to
  model an OSError raised during hashing), and the recursive file listing used
  by directory processing.
* Python floats are modelled by rationals; the tolerance comparisons in the
  source use only absolute value, subtraction, division and order, which agree
  with rational arithmetic on the values considered here.
* Fallible Python code is modelled with Except; a caught exception corresponds
  to matching on the error branch.
-/

/-- Kind of a filesystem node. -/
inductive FsKind
  | file
  | dir
deriving DecidableEq, Repr

/-- A pathlib.Path value in canonical form: absolute flag plus components.
Each component is assumed nonempty and free of separators, so the rendered
string contains a separator iff the path is absolute or has two or more
components. -/
structure PyPath where
  isAbs : Bool
  comps : List String
deriving DecidableEq, Repr

/-- Rendered string of a path (used only to build messages). -/
def pathToString (p : PyPath) : String :=
  (if p.isAbs then "/" else "") ++ String.intercalate "/" p.comps

/-- Path join, base / p: an absolute right operand replaces the base
(pathlib semantics). -/
def pyJoin (base p : PyPath) : PyPath :=
  if p.isAbs then p else ⟨base.isAbs, base.comps ++ p.comps⟩

/-- Path.relative_to: the components of p relative to base, or none when the
ValueError branch of the source would be taken. -/
def pyRelTo (p base : PyPath) : Option (List String) :=
  if p.isAbs = base.isAbs ∧ base.comps <+: p.comps then
    some (p.comps.drop base.comps.length)
  else none

/-- Path.is_relative_to as a Boolean. -/
def pyIsRelTo (p base : PyPath) : Bool :=
  (pyRelTo p base).isSome

/-- Whether the rendered string of the declared path contains a separator
(slash or backslash): true iff the path is absolute or has at least two
canonical components. -/
def hasSeparator (p : PyPath) : Bool :=
  p.isAbs || decide (2 ≤ p.comps.length)

/-- Python truthiness of the path string: the empty string is falsy. -/
def pathTruthy (p : PyPath) : Bool :=
  p.isAbs || !p.comps.isEmpty

/-- Filesystem oracle: node kinds, hashing results and recursive file listing.
hashRes models the digest computed by the hashing subsystem for an existing
path with a given method; an error value models an exception raised while
reading the artifact. -/
structure FS where
  kind : PyPath → Option FsKind
  hashRes : PyPath → String → Except String String
  filesUnder : PyPath → List PyPath

/-- Path.exists(). -/
def FS.pathExists (fs : FS) (p : PyPath) : Bool :=
  (fs.kind p).isSome

/-- Path.is_file(). -/
def FS.isFile (fs : FS) (p : PyPath) : Bool :=
  fs.kind p == some .file

/-- Path.is_dir(). -/
def FS.isDir (fs : FS) (p : PyPath) : Bool :=
  fs.kind p == some .dir

/-- Index of the last dot in a list of characters, if any. -/
def lastDotIndex (cs : List Char) : Option Nat :=
  let r := cs.reverse.indexOf '.'
  if r = cs.length then none else some (cs.length - 1 - r)

/-- Path.suffix of the last component, per the pathlib rule: the part of the
name from its last dot, provided that dot is neither the first nor the last
character; otherwise the empty string. -/
def pySuffix (p : PyPath) : String :=
  let name := p.comps.getLast?.getD ""
  let cs := name.data
  match lastDotIndex cs with
  | none => ""
  | some i => if 0 < i ∧ i < cs.length - 1 then String.mk (cs.drop i) else ""

/-- cresp.core.utils.calculate_artifact_hash: dispatches on the path kind and
raises ValueError when the path is neither file nor directory.  The digest
itself is given by the filesystem oracle. -/
def calculate_artifact_hash (fs : FS) (path : PyPath) (method : String) :
    Except String String :=
  match fs.kind path with
  | some _ => fs.hashRes path method
  | none => .error ("Path does not exist or is not a file/directory: " ++ pathToString path)

/-- cresp.core.validation.standard.compare_numeric_values: absolute tolerance
first, then relative tolerance (with the zero guards of the source), then
exact equality only when no tolerance was supplied. -/
def compare_numeric_values (value1 value2 : ℚ)
    (tolerance_absolute tolerance_relative : Option ℚ) : Bool :=
  let absPass : Bool :=
    match tolerance_absolute with
    | some ta => decide (|value1 - value2| ≤ ta)
    | none => false
  if absPass then true
  else
    let relPass : Option Bool :=
      match tolerance_relative with
      | some tr =>
        if value1 = 0 ∧ value2 = 0 then some true
        else if max |value1| |value2| = 0 then some false
        else if |value1 - value2| / max |value1| |value2| ≤ tr then some true
        else none
      | none => none
    match relPass with
    | some b => b
    | none =>
      if tolerance_absolute = none ∧ tolerance_relative = none then value1 == value2
      else false

/-- cresp.core.validation.standard.validate_standard.  The specialized
comparison branches of the source for csv/json and npy/npz files are stubs
that fall back to hash comparison; only the attempt flag influences the
failure message.  An error of calculate_artifact_hash propagates (it is caught
by the caller, validate_artifact). -/
def validate_standard (fs : FS) (artifact_path : PyPath) (reference_hash : String)
    (tolerance_absolute tolerance_relative : Option ℚ) :
    Except String (Bool × String) :=
  if fs.isFile artifact_path then
    let hasTol : Bool := tolerance_absolute.isSome || tolerance_relative.isSome
    let attempt_specialized : Bool :=
      (decide (pySuffix artifact_path ∈ [".csv", ".json"]) && hasTol) ||
      (decide (pySuffix artifact_path ∈ [".npy", ".npz"]) && hasTol)
    match calculate_artifact_hash fs artifact_path "sha256" with
    | .error e => .error e
    | .ok current_hash =>
      if current_hash == reference_hash then
        .ok (true, "Standard validation passed: exact hash match")
      else if attempt_specialized then
        .ok (false, "Standard validation failed: specialized comparison did not succeed and hash mismatch")
      else
        .ok (false, "Standard validation failed: hash mismatch")
  else
    match calculate_artifact_hash fs artifact_path "sha256" with
    | .error e => .error e
    | .ok current_hash =>
      if current_hash == reference_hash then
        .ok (true, "Standard validation passed: exact hash match for directory")
      else
        .ok (false, "Standard validation failed: directory hash mismatch")

/-- Number of positions below n at which the two character lists agree. -/
def countMatchingChars (l1 l2 : List Char) (n : Nat) : Nat :=
  ((l1.zip l2).take n).countP (fun q => q.1 == q.2)

/-- cresp.core.validation.tolerant.validate_tolerant.  The numeric
interpolations of the source messages are elided; the pass/fail structure and
the similarity formula (matching positions divided by the reference length)
are kept exactly. -/
def validate_tolerant (fs : FS) (artifact_path : PyPath) (reference_hash : String)
    (similarity_threshold : Option ℚ) : Except String (Bool × String) :=
  match similarity_threshold with
  | some threshold =>
    match calculate_artifact_hash fs artifact_path "sha256" with
    | .error e => .error e
    | .ok current_hash =>
      if reference_hash == "" then
        .ok (false, "Tolerant validation failed: reference hash is empty")
      else
        let len_min := min current_hash.length reference_hash.length
        let matching_chars := countMatchingChars current_hash.data reference_hash.data len_min
        let similarity : ℚ := (matching_chars : ℚ) / (reference_hash.length : ℚ)
        if threshold ≤ similarity then
          .ok (true, "Tolerant validation passed: similarity at or above threshold")
        else
          .ok (false, "Tolerant validation failed: similarity below threshold")
  | none => .ok (false, "Tolerant validation failed: similarity threshold not provided")

/-- cresp.core.validation.validate_artifact: existence check, initial hash
check with the strict short-circuits, then the mode-specific validation whose
exceptions are caught and turned into a failure pair. -/
def validate_artifact (fs : FS) (artifact_path : PyPath) (reference_hash : String)
    (validation_type : String)
    (tolerance_absolute tolerance_relative similarity_threshold : Option ℚ) :
    Bool × String :=
  if !fs.pathExists artifact_path then
    (false, "Artifact does not exist: " ++ pathToString artifact_path)
  else
    let modeSpecific : Bool × String :=
      match
        (if validation_type == "standard" then
          validate_standard fs artifact_path reference_hash tolerance_absolute tolerance_relative
        else if validation_type == "tolerant" then
          validate_tolerant fs artifact_path reference_hash similarity_threshold
        else
          .ok (false, "Unknown validation type: " ++ validation_type)) with
      | .ok r => r
      | .error e =>
        (false, "Validation error during " ++ validation_type ++ " mode specific check: " ++ e)
    match calculate_artifact_hash fs artifact_path "sha256" with
    | .ok current_hash =>
      if current_hash == reference_hash then (true, "Exact hash match")
      else if validation_type == "strict" then
        (false, "Strict validation failed: hash mismatch")
      else modeSpecific
    | .error e =>
      if validation_type == "strict" then
        (false, "Strict validation failed: could not calculate hash - " ++ e)
      else modeSpecific

/-!
Fingerprint engine (cresp.core.utils).  The running SHA-256 digest is
modelled as the free transcript of the data absorbed into it: two digests are
equal exactly when the absorbed transcripts are equal (the ideal,
collision-free reading of the hash, which is the only reading under which the
sensitivity properties of the specification are true).  A file digest absorbs
the 8192-byte chunks of the file content in order; a directory digest absorbs,
for every contained file in sorted order, the relative path string and then
the hex digest of that file's own fingerprint.
-/

/-- The chunks produced by the read loop of calculate_file_hash: successive
blocks of 8192 characters. -/
def fileChunks (l : List Char) : List (List Char) :=
  if h : l = [] then [] else l.take 8192 :: fileChunks (l.drop 8192)
termination_by l.length
decreasing_by
  have h1 : 0 < l.length := List.length_pos.mpr h
  simp [List.length_drop]
  omega

/-- Idealized digest value: the transcript of absorbed data.  A file digest
records its absorbed content chunks; a directory digest records the
(relative path, file fingerprint) pairs absorbed in order. -/
inductive Fp
  | file (chunks : List (List Char))
  | dir (entries : List (String × Fp))

/-- cresp.core.utils.calculate_file_hash: streaming digest over fixed-size
chunks of the content. -/
def calculate_file_hash (content : List Char) : Fp :=
  .file (fileChunks content)

/-- Comparison used to sort the contained files of a directory.  The source
sorts the pathlib.Path objects, which compare by their rendered strings; all
files share the directory itself as string prefix, so this equals comparing
the relative path strings. -/
def relPathLe (a b : String × List Char) : Bool :=
  decide (a.1 ≤ b.1)

/-- cresp.core.utils.calculate_dir_hash: the directory is given as the list of
its contained files, each a relative path string (as enumerated by rglob)
paired with its content; the digest absorbs, for every file in sorted order,
the relative path and then the file's own fingerprint. -/
def calculate_dir_hash (files : List (String × List Char)) : Fp :=
  .dir ((files.mergeSort relPathLe).map (fun e => (e.1, calculate_file_hash e.2)))

/-!
Workflow data model (cresp.core.workflow).  Output declarations are either a
plain path string or a dict with a path and optional shared flag, reproduction
settings and hash method; anything else is an invalid declaration that the
source skips.  The fingerprint ledger (CrespConfig) is not part of the
sources under verification, so it is modelled from the specification.
-/

/-- Per-output or per-file reproduction settings, as read from the
reproduction sub-dictionary; an absent key is none and an absent
sub-dictionary is the record with every field none. -/
structure ReproCfg where
  mode : Option String
  tolerance_absolute : Option ℚ
  tolerance_relative : Option ℚ
  similarity_threshold : Option ℚ
deriving DecidableEq

/-- The empty reproduction sub-dictionary. -/
def ReproCfg.empty : ReproCfg :=
  ⟨none, none, none, none⟩

/-- A declared stage output: a plain string path, a dict with at least a path
key (shared flag, reproduction settings and hash method optional), a dict
lacking a path key (dictNoPath), or some other value (invalidD).  The source
skips the last two in most code paths. -/
inductive OutputDecl
  | strD (path : PyPath)
  | dictD (path : PyPath) (shared : Option Bool) (reproduction : ReproCfg) (hash_method : Option String)
  | dictNoPath
  | invalidD
deriving DecidableEq

/-- Modelled from the spec: a ledger output entry, the structured record
path/hash/hash_method/shared plus optional reproduction settings that the
persistence collaborator stores per stage output (section 6 of the
specification).  Absent keys are none. -/
structure CfgOut where
  path : Option PyPath
  hash : Option String
  hash_method : Option String
  shared : Option Bool
  reproduction : ReproCfg
deriving DecidableEq

/-- Modelled from the spec: the per-stage data held by the persistence
collaborator; only the outputs list is relevant to the engine core.  The
outputs field is none when the stage data has no outputs key. -/
structure StageCfg where
  outputs : Option (List CfgOut)
deriving DecidableEq

/-- Modelled from the spec: the fingerprint ledger, a key-value store from
stage id to stage data (section 6 of the specification). -/
structure CrespConfig where
  stages : List (String × StageCfg)
deriving DecidableEq

/-- Modelled from the spec: get_stage of the persistence collaborator. -/
def CrespConfig.get_stage (c : CrespConfig) (stage_id : String) : Option StageCfg :=
  c.stages.lookup stage_id

/-- Replace the entry with the given path, or append a new one. -/
def updateOutputsList : List CfgOut → PyPath → CfgOut → List CfgOut
  | [], _, entry => [entry]
  | o :: rest, rel, entry =>
    if o.path == some rel then entry :: rest
    else o :: updateOutputsList rest rel entry

/-- Modelled from the spec: the per-stage write of update_artifact, replacing
the stage data in place or appending a fresh stage record. -/
def updateStagesList : List (String × StageCfg) → String → PyPath → CfgOut →
    List (String × StageCfg)
  | [], stage_id, rel, entry => [(stage_id, ⟨some (updateOutputsList [] rel entry)⟩)]
  | (a, sc) :: rest, stage_id, rel, entry =>
    if a == stage_id then
      (a, ⟨some (updateOutputsList (sc.outputs.getD []) rel entry)⟩) :: rest
    else (a, sc) :: updateStagesList rest stage_id rel entry

/-- Modelled from the spec: update_artifact of the persistence collaborator,
writing one ledger entry keyed by stage id and relative output path. -/
def CrespConfig.update_artifact (c : CrespConfig) (stage_id : String) (rel : PyPath)
    (entry : CfgOut) : CrespConfig :=
  ⟨updateStagesList c.stages stage_id rel entry⟩

/-- Insertion into a Python dict modelled as an association list: an existing
key keeps its position and gets the new value, a new key is appended. -/
def pyDictInsert : List (PyPath × CfgOut) → PyPath → CfgOut → List (PyPath × CfgOut)
  | [], k, v => [(k, v)]
  | (a, b) :: rest, k, v =>
    if a == k then (k, v) :: rest
    else (a, b) :: pyDictInsert rest k v

/-- A Python dict built from a list of key-value pairs (dict comprehension
semantics: later duplicates overwrite in place). -/
def pyDict (l : List (PyPath × CfgOut)) : List (PyPath × CfgOut) :=
  l.foldl (fun d e => pyDictInsert d e.1 e.2) []

/-- Python dict assignment on an association list keyed by strings. -/
def setAssoc {β : Type _} : List (String × β) → String → β → List (String × β)
  | [], k, v => [(k, v)]
  | (a, b) :: rest, k, v =>
    if a == k then (k, v) :: rest
    else (a, b) :: setAssoc rest k v

/-- A registered stage (cresp.core.workflow.stage.StageFunction); V is the
result type of the wrapped callable, whose behavior we model as returning a
value or raising (the core treats it as opaque).  Presentation-only fields
(description, parameters, code_handler string) are omitted. -/
structure StageFunction (V : Type) where
  dependencies : List String
  outputs : List OutputDecl
  reproduction_mode : String
  tolerance_absolute : Option ℚ
  tolerance_relative : Option ℚ
  similarity_threshold : Option ℚ
  skip_if_unchanged : Bool
  handler : Except String V

/-!
Scope resolution.  Each engine site that turns an output declaration into a
path and a shared flag is embedded as its own function, exactly following the
corresponding lines of the source.
-/

/-- cresp.core.workflow.utils.get_output_scope_and_path: the bare-filename
heuristic applies to strings always, and to dicts without an explicit shared
key when the path is truthy. -/
def get_output_scope_and_path (output_decl : OutputDecl) : Option PyPath × Bool :=
  match output_decl with
  | .strD p => (some p, !hasSeparator p)
  | .dictD p sh _ _ =>
    (some p, match sh with
      | some b => b
      | none => pathTruthy p && !hasSeparator p)
  | .dictNoPath => (none, false)
  | .invalidD => (none, false)

/-- Scope and path resolution inside check_outputs_unchanged (the skip
check, validation.py lines 81-91): strings default to non-shared and dicts
use only the explicit shared flag; no heuristic is applied.  Returns none for
declarations the loop skips, otherwise the path, the shared flag and the
reproduction settings of the declaration. -/
def checkUnchangedScopePath (output_decl : OutputDecl) :
    Option (PyPath × Bool × ReproCfg) :=
  match output_decl with
  | .strD p => some (p, false, ReproCfg.empty)
  | .dictD p sh repro _ => some (p, sh.getD false, repro)
  | .dictNoPath => none
  | .invalidD => none

/-- Scope, path and hash method resolution inside update_output_hashes
(record mode, validation.py lines 255-273): the bare-filename heuristic
applies to strings, and to dicts without an explicit shared key when the path
is truthy. -/
def updateHashesScope (output_decl : OutputDecl) : Option PyPath × String × Bool :=
  match output_decl with
  | .strD p => (some p, "sha256", !hasSeparator p)
  | .dictD p sh _ hm =>
    (some p, hm.getD "sha256", match sh with
      | some b => b
      | none => pathTruthy p && !hasSeparator p)
  | .dictNoPath => (none, "sha256", false)
  | .invalidD => (none, "sha256", false)

/-- Scope and path resolution inside validate_outputs (verify mode,
validation.py lines 431-450): same heuristic as record mode; dicts without a
path and other invalid declarations are skipped. -/
def validateOutputsScope (output_decl : OutputDecl) :
    Option (PyPath × Bool × ReproCfg) :=
  match output_decl with
  | .strD p => some (p, !hasSeparator p, ReproCfg.empty)
  | .dictD p sh repro _ =>
    some (p,
      (match sh with
        | some b => b
        | none => pathTruthy p && !hasSeparator p),
      repro)
  | .dictNoPath => none
  | .invalidD => none

/-- First present value among file-level, declaration-level and stage-level
settings (the override order of the source). -/
def pick3 {α : Type _} (a b : Option α) (c : Option α) : Option α :=
  match a with
  | some v => some v
  | none =>
    match b with
    | some v => some v
    | none => c

/-- The expected-files dict of check_outputs_unchanged: config outputs that
carry both a path and a hash key, keyed by path. -/
def expectedFilesConfig (config_outputs : List CfgOut) : List (PyPath × CfgOut) :=
  pyDict (config_outputs.filterMap (fun o =>
    match o.path, o.hash with
    | some p, some _ => some (p, o)
    | _, _ => none))

variable {V : Type}

/-- One file check of the skip-check validation loop (validation.py lines
177-220): resolve the effective tier and tolerances in file, declaration,
stage order, resolve the file path by its shared flag (defaulting to the
declaration scope) and run validate_artifact against the stored hash.
The hash is present by construction of the expected-files dict. -/
def validateOneFile (fs : FS) (stage : StageFunction V) (declRepro : ReproCfg)
    (is_shared : Bool) (active_output_dir shared_data_dir : PyPath)
    (k : PyPath) (e : CfgOut) : Bool :=
  let fileRepro := e.reproduction
  let final_repro_mode := fileRepro.mode.getD (declRepro.mode.getD stage.reproduction_mode)
  let final_tol_abs := pick3 fileRepro.tolerance_absolute declRepro.tolerance_absolute stage.tolerance_absolute
  let final_tol_rel := pick3 fileRepro.tolerance_relative declRepro.tolerance_relative stage.tolerance_relative
  let final_sim_thresh := pick3 fileRepro.similarity_threshold declRepro.similarity_threshold stage.similarity_threshold
  let file_is_shared := e.shared.getD is_shared
  let actual_file_path := pyJoin (if file_is_shared then shared_data_dir else active_output_dir) k
  (validate_artifact fs actual_file_path (e.hash.getD "") final_repro_mode
    final_tol_abs final_tol_rel final_sim_thresh).1

/-- The per-file validation loop of the skip check: none when some file fails
validation (the loop breaks and the function returns false), otherwise the
number of files checked. -/
def checkValidateFiles (fs : FS) (stage : StageFunction V) (declRepro : ReproCfg)
    (is_shared : Bool) (active_output_dir shared_data_dir : PyPath) :
    List (PyPath × CfgOut) → Option Nat
  | [] => some 0
  | (k, e) :: rest =>
    if validateOneFile fs stage declRepro is_shared active_output_dir shared_data_dir k e then
      (checkValidateFiles fs stage declRepro is_shared active_output_dir shared_data_dir rest).map (· + 1)
    else none

/-- The full filesystem location of a ledger entry, resolved under the root
selected by the entry's own shared flag (validation.py lines 139-144). -/
def entryFullPath (active_output_dir shared_data_dir : PyPath) (k : PyPath) (e : CfgOut) :
    PyPath :=
  pyJoin (if e.shared.getD false then shared_data_dir else active_output_dir) k

/-- The directory branch of the skip check (validation.py lines 136-167):
collect every config entry physically nested under the declared directory,
returning none when a collected entry is missing on disk or its scope does
not match the declaration (the source returns False there). -/
def collectDirEntries (fs : FS) (active_output_dir shared_data_dir resolved : PyPath)
    (is_shared : Bool) : List (PyPath × CfgOut) → Option (List (PyPath × CfgOut))
  | [] => some []
  | (k, e) :: rest =>
    let config_full_path := entryFullPath active_output_dir shared_data_dir k e
    if pyIsRelTo config_full_path resolved then
      if !fs.pathExists config_full_path then none
      else if (e.shared.getD false) != is_shared then none
      else (collectDirEntries fs active_output_dir shared_data_dir resolved is_shared rest).map
        ((k, e) :: ·)
    else collectDirEntries fs active_output_dir shared_data_dir resolved is_shared rest

/-- Processing of one output declaration by check_outputs_unchanged: none
when the source would return False, otherwise the number of files checked for
this declaration (0 for a skipped invalid declaration). -/
def checkOneDecl (fs : FS) (stage : StageFunction V)
    (active_output_dir shared_data_dir : PyPath) (expected : List (PyPath × CfgOut))
    (d : OutputDecl) : Option Nat :=
  match checkUnchangedScopePath d with
  | none => some 0
  | some (p, is_shared, declRepro) =>
    let base_dir := if is_shared then shared_data_dir else active_output_dir
    let resolved := pyJoin base_dir p
    match pyRelTo resolved base_dir with
    | none => none
    | some rk =>
      match fs.kind resolved with
      | some .file =>
        match expected.lookup (⟨false, rk⟩ : PyPath) with
        | none => none
        | some e =>
          if (e.shared.getD false) == is_shared then
            checkValidateFiles fs stage declRepro is_shared active_output_dir shared_data_dir
              [((⟨false, rk⟩ : PyPath), e)]
          else none
      | some .dir =>
        match collectDirEntries fs active_output_dir shared_data_dir resolved is_shared expected with
        | none => none
        | some l =>
          if l.isEmpty then none
          else checkValidateFiles fs stage declRepro is_shared active_output_dir shared_data_dir l
      | none => none

/-- The declaration loop of check_outputs_unchanged: none when the source
returns False early, otherwise the total number of files checked. -/
def checkDeclList (fs : FS) (stage : StageFunction V)
    (active_output_dir shared_data_dir : PyPath) (expected : List (PyPath × CfgOut)) :
    List OutputDecl → Option Nat
  | [] => some 0
  | d :: ds =>
    match checkOneDecl fs stage active_output_dir shared_data_dir expected d with
    | none => none
    | some k => (checkDeclList fs stage active_output_dir shared_data_dir expected ds).map (k + ·)

/-- cresp.core.workflow.validation.check_outputs_unchanged: True only when
the stage has config data with hashed outputs, every declared output checks
out against the ledger and at least one file was actually checked. -/
def check_outputs_unchanged (fs : FS) (stage_id : String) (registered_stage : StageFunction V)
    (config : CrespConfig) (active_output_dir shared_data_dir : PyPath) : Bool :=
  match config.get_stage stage_id with
  | none => false
  | some stage_config =>
    match stage_config.outputs with
    | none => false
    | some config_outputs =>
      if registered_stage.outputs.isEmpty then false
      else if config_outputs.isEmpty then false
      else
        let expected := expectedFilesConfig config_outputs
        if expected.isEmpty then false
        else
          match checkDeclList fs registered_stage active_output_dir shared_data_dir expected
              registered_stage.outputs with
          | none => false
          | some n => decide (0 < n)

/-- Whether a ledger entry lies beneath the resolved directory, per the
containment test of the source (the entry path resolved under its own root is
relative to the directory). -/
def EntryUnderDir (active_output_dir shared_data_dir resolved : PyPath)
    (k : PyPath) (e : CfgOut) : Prop :=
  pyIsRelTo (entryFullPath active_output_dir shared_data_dir k e) resolved = true

/-- Declarative reading of the skip condition for a single declaration, as
the specification states it: the declared output resolves (relative to its
root) to an existing path; if a file, it has a ledger entry of matching scope
that validates successfully; if a directory, at least one ledger entry lies
beneath it and every such entry exists on disk, matches the declared scope
and validates successfully. -/
def DeclUnchanged (fs : FS) (stage : StageFunction V)
    (active_output_dir shared_data_dir : PyPath) (expected : List (PyPath × CfgOut))
    (d : OutputDecl) : Prop :=
  ∃ p is_shared declRepro, checkUnchangedScopePath d = some (p, is_shared, declRepro) ∧
    let base_dir := if is_shared then shared_data_dir else active_output_dir
    let resolved := pyJoin base_dir p
    ∃ rk, pyRelTo resolved base_dir = some rk ∧
      ((fs.kind resolved = some .file ∧
        ∃ e, expected.lookup (⟨false, rk⟩ : PyPath) = some e ∧
          e.shared.getD false = is_shared ∧
          validateOneFile fs stage declRepro is_shared active_output_dir shared_data_dir
            (⟨false, rk⟩ : PyPath) e = true) ∨
      (fs.kind resolved = some .dir ∧
        (∃ q ∈ expected, EntryUnderDir active_output_dir shared_data_dir resolved q.1 q.2) ∧
        ∀ q ∈ expected, EntryUnderDir active_output_dir shared_data_dir resolved q.1 q.2 →
          fs.pathExists (entryFullPath active_output_dir shared_data_dir q.1 q.2) = true ∧
          q.2.shared.getD false = is_shared ∧
          validateOneFile fs stage declRepro is_shared active_output_dir shared_data_dir
            q.1 q.2 = true))

/-!
Record-mode output hashing (cresp.core.workflow.validation.update_output_hashes).
Exceptions while hashing a file are caught by the source and reported as
warnings, skipping that file; the model does the same by skipping on an error
result.  The batch_update context of the persistence collaborator groups the
writes of one stage and is a no-op on the in-memory ledger model.
-/

/-- A fresh ledger entry as written by record mode. -/
def recordedEntry (relKey : PyPath) (h hash_method : String) (is_shared : Bool) : CfgOut :=
  ⟨some relKey, some h, some hash_method, some is_shared, ReproCfg.empty⟩

/-- The relative ledger key of a resolved output path: relative to its root
when possible, the resolved path itself otherwise (the ValueError fallback of
the source). -/
def relKeyOf (resolved base_dir : PyPath) : PyPath :=
  match pyRelTo resolved base_dir with
  | some rk => ⟨false, rk⟩
  | none => resolved

/-- The per-file loop of the directory branch of update_output_hashes. -/
def updateDirFiles (fs : FS) (stage_id : String) (hash_method : String) (is_shared : Bool)
    (base_dir : PyPath) (config : CrespConfig) :
    List PyPath → List (PyPath × String) × CrespConfig
  | [] => ([], config)
  | f :: rest =>
    match calculate_artifact_hash fs f hash_method with
    | .error _ => updateDirFiles fs stage_id hash_method is_shared base_dir config rest
    | .ok h =>
      let relKey := relKeyOf f base_dir
      let config1 := config.update_artifact stage_id relKey (recordedEntry relKey h hash_method is_shared)
      let (tl, config2) := updateDirFiles fs stage_id hash_method is_shared base_dir config1 rest
      ((relKey, h) :: tl, config2)

/-- Processing of one output declaration by update_output_hashes. -/
def updateOneDecl (fs : FS) (stage_id : String) (config : CrespConfig)
    (active_output_dir shared_data_dir : PyPath) (d : OutputDecl) :
    List (PyPath × String) × CrespConfig :=
  match updateHashesScope d with
  | (none, _, _) => ([], config)
  | (some p, hash_method, is_shared) =>
    let base_dir := if is_shared then shared_data_dir else active_output_dir
    let resolved := pyJoin base_dir p
    if !fs.pathExists resolved then ([], config)
    else if fs.isFile resolved then
      match calculate_artifact_hash fs resolved hash_method with
      | .error _ => ([], config)
      | .ok h =>
        let relKey := relKeyOf resolved base_dir
        ([(relKey, h)],
          config.update_artifact stage_id relKey (recordedEntry relKey h hash_method is_shared))
    else if fs.isDir resolved then
      updateDirFiles fs stage_id hash_method is_shared base_dir config
        ((fs.filesUnder resolved).filter (fun f => fs.isFile f))
    else ([], config)

/-- cresp.core.workflow.validation.update_output_hashes: hash every declared
output (directories expand to their contained files) and write the ledger
entries, returning the list of (relative key, hash) pairs. -/
def update_output_hashes (fs : FS) (stage_id : String) (config : CrespConfig)
    (active_output_dir shared_data_dir : PyPath) :
    List OutputDecl → List (PyPath × String) × CrespConfig
  | [] => ([], config)
  | d :: ds =>
    let (hs, config1) := updateOneDecl fs stage_id config active_output_dir shared_data_dir d
    let (tl, config2) := update_output_hashes fs stage_id config1 active_output_dir shared_data_dir ds
    (hs ++ tl, config2)

/-!
Verify-mode output validation (cresp.core.workflow.validation.validate_outputs).
-/

/-- A per-file validation record appended to validation_results. -/
structure VRec where
  stage : String
  file : String
  status : String
  mode : String
  message : String
deriving DecidableEq

/-- The Case 2 collection loop of validate_outputs: ledger entries counted as
inside the declared directory either because their path string extends the
declared path string across a separator, or because their resolved location
is physically inside the resolved directory.  Each collected entry carries
the shared flag it will be resolved under. -/
def collectValidateDirEntries (fs : FS) (active_output_dir shared_data_dir resolved p : PyPath)
    (is_shared0 : Bool) : List (PyPath × CfgOut) → List (PyPath × CfgOut × Bool)
  | [] => []
  | (ep, ecfg) :: rest =>
    let method1 := (ep.isAbs == p.isAbs) && p.comps.isPrefixOf ep.comps &&
      decide (p.comps.length < ep.comps.length)
    let method2 := pyIsRelTo (entryFullPath active_output_dir shared_data_dir ep ecfg) resolved
    if method1 || method2 then
      let eis := match ecfg.shared with
        | some b => b
        | none => is_shared0
      (ep, ecfg, eis) ::
        collectValidateDirEntries fs active_output_dir shared_data_dir resolved p is_shared0 rest
    else collectValidateDirEntries fs active_output_dir shared_data_dir resolved p is_shared0 rest

/-- The per-file loop of validate_outputs.  Returns (no failure among the
non-ignored files, any validation or ignore was performed, the records
appended). -/
def validateFilesLoop (fs : FS) (stage : StageFunction V) (stage_id : String)
    (declRepro : ReproCfg) (active_output_dir shared_data_dir : PyPath) :
    List (PyPath × CfgOut × Bool) → Bool × Bool × List VRec
  | [] => (true, false, [])
  | (ek, ecfg, eis) :: rest =>
    let (restPassed, _, restRecs) :=
      validateFilesLoop fs stage stage_id declRepro active_output_dir shared_data_dir rest
    match ecfg.hash with
    | none => (restPassed, true, restRecs)
    | some h =>
      let fileRepro := ecfg.reproduction
      let final_repro_mode := fileRepro.mode.getD (declRepro.mode.getD stage.reproduction_mode)
      let final_tol_abs := pick3 fileRepro.tolerance_absolute declRepro.tolerance_absolute stage.tolerance_absolute
      let final_tol_rel := pick3 fileRepro.tolerance_relative declRepro.tolerance_relative stage.tolerance_relative
      let final_sim_thresh := pick3 fileRepro.similarity_threshold declRepro.similarity_threshold stage.similarity_threshold
      let actual := pyJoin (if eis then shared_data_dir else active_output_dir) ek
      let fileStr := pathToString actual
      if final_repro_mode == "ignore" then
        let rec0 : VRec := ⟨stage_id, fileStr, "Ignored", final_repro_mode, "Validation skipped (ignore mode)"⟩
        (restPassed, true, rec0 :: restRecs)
      else if !fs.pathExists actual then
        let rec0 : VRec := ⟨stage_id, fileStr, "Failed", final_repro_mode, "Output file not found: " ++ fileStr⟩
        (false, true, rec0 :: restRecs)
      else
        let vres := validate_artifact fs actual h final_repro_mode final_tol_abs final_tol_rel final_sim_thresh
        let rec0 : VRec := ⟨stage_id, fileStr, if vres.1 then "Passed" else "Failed", final_repro_mode, vres.2⟩
        ((if vres.1 then restPassed else false), true, rec0 :: restRecs)

/-- Processing of one output declaration by validate_outputs: exact ledger
match first, then the directory search; a declaration with no ledger match
only produces a warning. -/
def validateOneDecl (fs : FS) (stage : StageFunction V) (stage_id : String)
    (active_output_dir shared_data_dir : PyPath) (expected : List (PyPath × CfgOut))
    (d : OutputDecl) : Bool × Bool × List VRec :=
  match validateOutputsScope d with
  | none => (true, false, [])
  | some (p, is_shared0, declRepro) =>
    let resolved := pyJoin (if is_shared0 then shared_data_dir else active_output_dir) p
    let files : List (PyPath × CfgOut × Bool) :=
      match expected.lookup p with
      | some e =>
        [(p, e, match e.shared with
          | some b => b
          | none => is_shared0)]
      | none =>
        if fs.isDir resolved then
          collectValidateDirEntries fs active_output_dir shared_data_dir resolved p is_shared0 expected
        else []
    if files.isEmpty then (true, false, [])
    else validateFilesLoop fs stage stage_id declRepro active_output_dir shared_data_dir files

/-- The declaration loop of validate_outputs, conjoining the pass flags and
collecting records in order. -/
def validateDeclsLoop (fs : FS) (stage : StageFunction V) (stage_id : String)
    (active_output_dir shared_data_dir : PyPath) (expected : List (PyPath × CfgOut)) :
    List OutputDecl → Bool × Bool × List VRec
  | [] => (true, false, [])
  | d :: ds =>
    let (p1, f1, r1) := validateOneDecl fs stage stage_id active_output_dir shared_data_dir expected d
    let (p2, f2, r2) := validateDeclsLoop fs stage stage_id active_output_dir shared_data_dir expected ds
    (p1 && p2, f1 || f2, r1 ++ r2)

/-- cresp.core.workflow.validation.validate_outputs: validate every declared
output against the ledger.  True when nothing comparable was found (cannot
fail a check that cannot be performed) or when every non-ignored file
validated; the second component is the list of records appended to
validation_results. -/
def validate_outputs (fs : FS) (stage_id : String) (registered_stage : StageFunction V)
    (config : CrespConfig) (active_output_dir shared_data_dir : PyPath) : Bool × List VRec :=
  match config.get_stage stage_id with
  | none => (true, [])
  | some stage_config =>
    match stage_config.outputs with
    | none => (true, [])
    | some config_outputs =>
      if config_outputs.isEmpty then (true, [])
      else if registered_stage.outputs.isEmpty then (true, [])
      else
        let expected := pyDict (config_outputs.filterMap (fun o =>
          match o.path, o.hash with
          | some pp, some hh => if pathTruthy pp && (hh != "") then some (pp, o) else none
          | _, _ => none))
        if expected.isEmpty then (true, [])
        else
          let res := validateDeclsLoop fs registered_stage stage_id active_output_dir
            shared_data_dir expected registered_stage.outputs
          if !res.2.1 then (true, res.2.2) else (res.1, res.2.2)

/-!
Stage runner (cresp.core.workflow.execution.run_stage) and the workflow run
loop (cresp.core.workflow.workflow.Workflow.run, non-rich path).  The mutable
run state of the Python code is threaded explicitly; a raised exception is an
error value returned together with the state as mutated so far, matching
in-place mutation under exception propagation.  The handlerCalls field
instruments each invocation of a stage's code handler, which the source
performs by calling the wrapped function.  Recursion is bounded by fuel; one
unit is consumed per nesting level of run_stage, so any fuel larger than the
dependency depth behaves like the unbounded Python recursion.
-/

/-- The per-stage validation status: True, False, None or the SKIPPED
sentinel. -/
inductive PyStatus
  | vtrue
  | vfalse
  | vnone
  | skipped
deriving DecidableEq, Repr

/-- The cached outcome triple of one stage: result value (none for a skipped
stage), calculated hashes, validation status. -/
abbrev RunTriple (V : Type) := Option V × List (PyPath × String) × PyStatus

/-- The mutable state of one run. -/
structure RunState (V : Type) where
  executed_stages : List String
  validation_results : List VRec
  stage_validation_status : List (String × PyStatus)
  run_cache : List (String × RunTriple V)
  config : CrespConfig
  handlerCalls : List String

/-- Exceptions raised by run_stage: the ValueError for an unknown stage, a
re-raised code handler exception, the ReproductionError, and exhausted fuel
(the model counterpart of exceeding the Python recursion limit). -/
inductive RunErr
  | fuelExhausted
  | stageNotFound (id : String)
  | stageError (id : String) (msg : String)
  | reproductionError (id : String)
deriving DecidableEq, Repr

/-- The fixed collaborators and settings of one workflow run. -/
structure WorkflowEnv (V : Type) where
  stages : List (String × StageFunction V)
  fs : FS
  active_output_dir : PyPath
  shared_data_dir : PyPath
  mode : String
  reproduction_failure_mode : String

/-- Store the final status and cache the outcome triple, then return it
(the last lines of run_stage). -/
def cacheReturn (st : RunState V) (stage_id : String) (t : RunTriple V) :
    RunState V × Except RunErr (RunTriple V) :=
  ({ st with
      stage_validation_status := setAssoc st.stage_validation_status stage_id t.2.2,
      run_cache := setAssoc st.run_cache stage_id t }, .ok t)

mutual

/-- cresp.core.workflow.execution.run_stage: cache check, recursive
dependency execution, skip decision, handler execution, then record-mode
hashing or verify-mode validation, caching the outcome. -/
def run_stage (env : WorkflowEnv V) : Nat → String → RunState V →
    RunState V × Except RunErr (RunTriple V)
  | 0, stage_id, st =>
    match st.run_cache.lookup stage_id with
    | some t => (st, .ok t)
    | none =>
      match env.stages.lookup stage_id with
      | none => (st, .error (.stageNotFound stage_id))
      | some _ => (st, .error .fuelExhausted)
  | fuel + 1, stage_id, st =>
    match st.run_cache.lookup stage_id with
    | some t => (st, .ok t)
    | none =>
      match env.stages.lookup stage_id with
      | none => (st, .error (.stageNotFound stage_id))
      | some stage_func =>
          let rd := runDeps env fuel stage_func.dependencies false st
          let st1 := rd.1
          match rd.2 with
          | .error e => (st1, .error e)
          | .ok dependencies_were_run_or_failed =>
            let should_skip := stage_func.skip_if_unchanged &&
              !dependencies_were_run_or_failed &&
              check_outputs_unchanged env.fs stage_id stage_func st1.config
                env.active_output_dir env.shared_data_dir
            if should_skip then
              cacheReturn
                { st1 with executed_stages := st1.executed_stages ++ [stage_id] }
                stage_id (none, [], .skipped)
            else
              let st2 := { st1 with handlerCalls := st1.handlerCalls ++ [stage_id] }
              match stage_func.handler with
              | .error e => (st2, .error (.stageError stage_id e))
              | .ok v =>
                let st3 := { st2 with executed_stages := st2.executed_stages ++ [stage_id] }
                if stage_func.outputs.isEmpty then
                  cacheReturn st3 stage_id (some v, [], .vnone)
                else if env.mode == "experiment" then
                  let hb := update_output_hashes env.fs stage_id st3.config
                    env.active_output_dir env.shared_data_dir stage_func.outputs
                  cacheReturn { st3 with config := hb.2 } stage_id (some v, hb.1, .vnone)
                else if env.mode == "reproduction" then
                  let vr := validate_outputs env.fs stage_id stage_func st3.config
                    env.active_output_dir env.shared_data_dir
                  let st4 := { st3 with validation_results := st3.validation_results ++ vr.2 }
                  if !vr.1 && (env.reproduction_failure_mode == "stop") then
                    (st4, .error (.reproductionError stage_id))
                  else
                    cacheReturn st4 stage_id (some v, [], if vr.1 then .vtrue else .vfalse)
                else
                  cacheReturn st3 stage_id (some v, [], .vnone)
termination_by fuel _ _ => (fuel, 0, 0)

/-- The dependency loop of run_stage: run each dependency recursively,
accumulating the dependencies-were-run-or-failed flag. -/
def runDeps (env : WorkflowEnv V) : Nat → List String → Bool → RunState V →
    RunState V × Except RunErr Bool
  | _, [], flag, st => (st, .ok flag)
  | fuel, dep :: rest, flag, st =>
    let rs := run_stage env fuel dep st
    let st1 := rs.1
    match rs.2 with
    | .error e => (st1, .error e)
    | .ok t =>
      let flag1 := if t.2.2 != PyStatus.skipped then true else flag
      let flag2 :=
        if t.2.2 == PyStatus.vfalse && (env.reproduction_failure_mode == "stop") then true
        else flag1
      runDeps env fuel rest flag2 st1
termination_by fuel deps _ _ => (fuel, 1, deps.length)

end

/-!
Dependency resolver (cresp.core.workflow.execution.resolve_execution_order).
-/

/-- Resolver errors: unknown dependency or target, circular dependency, and
exhausted fuel (the model counterpart of exceeding the recursion limit; shown
unreachable for the fuel the resolver passes). -/
inductive ResolveErr
  | unknownStage (id : String)
  | circular (id : String)
  | fuelExhausted
deriving DecidableEq, Repr

/-- The state of the depth-first traversal: finished order, permanently
visited nodes, and the active recursion path. -/
structure VisitSt where
  order : List String
  visited : List String
  visiting : List String
deriving DecidableEq, Repr

mutual

/-- The visit function of resolve_execution_order: registration check,
visited and visiting marks, recursive visit of dependencies, then append to
the order. -/
def visitStage (stages : List (String × StageFunction V)) : Nat → String → VisitSt →
    Except ResolveErr VisitSt
  | 0, _, _ => .error .fuelExhausted
  | fuel + 1, stage_id, s =>
    match stages.lookup stage_id with
    | none => .error (.unknownStage stage_id)
    | some stage =>
      if stage_id ∈ s.visited then .ok s
      else if stage_id ∈ s.visiting then .error (.circular stage_id)
      else
        match visitList stages fuel stage.dependencies
            { s with visiting := stage_id :: s.visiting } with
        | .error e => .error e
        | .ok s1 =>
          .ok { order := s1.order ++ [stage_id], visited := stage_id :: s1.visited,
                visiting := s1.visiting.erase stage_id }
termination_by fuel _ _ => (fuel, 0, 0)

/-- The dependency loop of the visit function. -/
def visitList (stages : List (String × StageFunction V)) : Nat → List String → VisitSt →
    Except ResolveErr VisitSt
  | _, [], s => .ok s
  | fuel, d :: ds, s =>
    match visitStage stages fuel d s with
    | .error e => .error e
    | .ok s1 => visitList stages fuel ds s1
termination_by fuel ds _ => (fuel, 1, ds.length)

end

/-- The no-target loop of resolve_execution_order: visit every registered
stage in registration order, skipping already-visited ones. -/
def visitAll (stages : List (String × StageFunction V)) (fuel : Nat) :
    List String → VisitSt → Except ResolveErr VisitSt
  | [], s => .ok s
  | sid :: rest, s =>
    if sid ∈ s.visited then visitAll stages fuel rest s
    else
      match visitStage stages fuel sid s with
      | .error e => .error e
      | .ok s1 => visitAll stages fuel rest s1

/-- cresp.core.workflow.execution.resolve_execution_order: depth-first
topological sort of the registered stages, restricted to the target's
transitive dependency closure when a target is given.  The fuel bounds the
recursion depth by one more than the number of registered stages, which is
shown sufficient. -/
def resolve_execution_order (stages : List (String × StageFunction V))
    (target_stage : Option String) : Except ResolveErr (List String) :=
  let fuel := stages.length + 1
  match target_stage with
  | some t =>
    if (stages.lookup t).isNone then .error (.unknownStage t)
    else (visitStage stages fuel t ⟨[], [], []⟩).map (fun s => s.order)
  | none =>
    (visitAll stages fuel (stages.map (fun q => q.1)) ⟨[], [], []⟩).map (fun s => s.order)

/-- The dependency edge relation of a stage set: y depends directly on z. -/
def depEdge (stages : List (String × StageFunction V)) (y z : String) : Prop :=
  ∃ st, stages.lookup y = some st ∧ z ∈ st.dependencies

/-- Transitive dependency closure membership: Reaches stages t s means s is t
itself or a (possibly indirect) dependency of t. -/
def Reaches (stages : List (String × StageFunction V)) : String → String → Prop :=
  Relation.ReflTransGen (depEdge stages)

/-- An acyclic stage set: no stage transitively depends on itself. -/
def AcyclicStages (stages : List (String × StageFunction V)) : Prop :=
  ∀ x, ¬ Relation.TransGen (depEdge stages) x x

/-- The workflow run loop over the execution plan (non-rich path of
Workflow.run): each planned stage is run; a stage whose run raises marks the
workflow failed and, under the stop policy, breaks the loop; a stage whose
status is False likewise.  Results are recorded per stage id. -/
def workflowLoop (env : WorkflowEnv V) (fuel : Nat) :
    List String → RunState V → List (String × Option V) → Bool →
    RunState V × List (String × Option V) × Bool
  | [], st, results, failed => (st, results, failed)
  | sid :: rest, st, results, failed =>
    let rs := run_stage env fuel sid st
    let st1 := rs.1
    match rs.2 with
    | .ok t =>
      let results1 := results ++ [(sid, t.1)]
      if t.2.2 == PyStatus.vfalse then
        if env.reproduction_failure_mode == "stop" then (st1, results1, true)
        else workflowLoop env fuel rest st1 results1 true
      else workflowLoop env fuel rest st1 results1 failed
    | .error _ =>
      if env.reproduction_failure_mode == "stop" then (st1, results, true)
      else workflowLoop env fuel rest st1 results true

/-- The outcome of Workflow.run: per-stage results, final run state, the
workflow-failed flag, and whether the configuration was saved (the source
saves only in experiment mode; persistence itself is a collaborator modelled
from the spec). -/
structure RunOutcome (V : Type) where
  results : List (String × Option V)
  finalState : RunState V
  workflow_failed : Bool
  config_saved : Bool

/-- cresp.core.workflow.workflow.Workflow.run (non-rich path): resolve the
execution plan (resolver errors propagate uncaught), run it over a fresh run
state holding the persisted ledger, then save the configuration only in
experiment mode. -/
def workflowRun (env : WorkflowEnv V) (config0 : CrespConfig) (target : Option String) :
    Except ResolveErr (RunOutcome V) :=
  match resolve_execution_order env.stages target with
  | .error e => .error e
  | .ok plan =>
    let st0 : RunState V := ⟨[], [], [], [], config0, []⟩
    let fuel := env.stages.length + 1
    let res := workflowLoop env fuel plan st0 [] false
    .ok ⟨res.2.1, res.1, res.2.2, env.mode == "experiment"⟩

/-!
Derived definitions used by the theorem statements, and the concrete objects
used by witnesses and counterexamples.
-/

/-- The expected-files dict that the skip check derives from the ledger for a
stage: empty when the stage has no config data or no outputs key. -/
def expectedForStage (config : CrespConfig) (stage_id : String) : List (PyPath × CfgOut) :=
  match config.get_stage stage_id with
  | none => []
  | some sc => expectedFilesConfig (sc.outputs.getD [])

/-- A well-formed output declaration: a plain string or a dict carrying a
path (the forms the skip check processes rather than silently skips). -/
def ValidOutputDecl (d : OutputDecl) : Prop :=
  (checkUnchangedScopePath d).isSome = true

/-- A relative single-component path, used by concrete examples. -/
def pTxt : PyPath := ⟨false, ["data.txt"]⟩

/-- A csv file path, used by concrete examples. -/
def pCsv : PyPath := ⟨false, ["vals.csv"]⟩

/-- A filesystem holding one file whose digest is h1. -/
def fsExact : FS :=
  ⟨fun p => if p = pTxt then some .file else none,
   fun p _ => if p = pTxt then .ok "h1" else .error "missing",
   fun _ => []⟩

/-- A filesystem holding one csv file whose digest is ha. -/
def fsCsv : FS :=
  ⟨fun p => if p = pCsv then some .file else none,
   fun p _ => if p = pCsv then .ok "ha" else .error "missing",
   fun _ => []⟩

/-- A filesystem holding one file whose hashing always raises. -/
def fsErr : FS :=
  ⟨fun p => if p = pTxt then some .file else none,
   fun _ _ => .error "io error",
   fun _ => []⟩

/-- The declared output key of the concrete skip-check example. -/
def outKey : PyPath := ⟨false, ["out.txt"]⟩

/-- The mode-specific output root of the concrete examples. -/
def activeDir : PyPath := ⟨true, ["exp"]⟩

/-- The shared data root of the concrete examples. -/
def sharedDir : PyPath := ⟨true, ["shared"]⟩

/-- The resolved location of the concrete declared output. -/
def resolvedOut : PyPath := ⟨true, ["exp", "out.txt"]⟩

/-- A filesystem where the concrete declared output exists with digest h1. -/
def fsSkip : FS :=
  ⟨fun p => if p = resolvedOut then some .file else none,
   fun p _ => if p = resolvedOut then .ok "h1" else .error "missing",
   fun _ => []⟩

/-- A concrete stage with one declared output and skip_if_unchanged set. -/
def stageA : StageFunction Nat :=
  ⟨[], [.strD outKey], "strict", none, none, none, true, .ok 7⟩

/-- A ledger holding the recorded entry for the concrete stage. -/
def cfgA : CrespConfig :=
  ⟨[("A", ⟨some [⟨some outKey, some "h1", some "sha256", some false, ReproCfg.empty⟩]⟩)]⟩

/-- A reproduction-mode environment for the concrete skip example. -/
def envSkip : WorkflowEnv Nat :=
  ⟨[("A", stageA)], fsSkip, activeDir, sharedDir, "reproduction", "stop"⟩

/-- The fresh run state holding the concrete ledger. -/
def stateA : RunState Nat := ⟨[], [], [], [], cfgA, []⟩

/-- A stage whose handler raises, with no outputs and no dependencies. -/
def stageX : StageFunction Nat :=
  ⟨[], [], "strict", none, none, none, false, .error "boom"⟩

/-- A stage depending on the raising stage. -/
def stageY : StageFunction Nat :=
  ⟨["X"], [], "strict", none, none, none, false, .ok 1⟩

/-- An environment with continue failure policy in which the raising stage
has a dependent. -/
def envXY : WorkflowEnv Nat :=
  ⟨[("X", stageX), ("Y", stageY)], fsSkip, activeDir, sharedDir, "experiment", "continue"⟩

/-- The memoization invariant of a run state: no stage handler has been
invoked twice, and every stage whose handler was invoked has a cached
outcome. -/
def RunInv (st : RunState V) : Prop :=
  st.handlerCalls.Nodup ∧ ∀ id ∈ st.handlerCalls, (st.run_cache.lookup id).isSome = true

/-- A finished order is dependency-closed: every listed stage has each of its
dependencies listed at a strictly smaller index. -/
def OrderClosed (stages : List (String × StageFunction V)) (order : List String) : Prop :=
  ∀ sid st d, sid ∈ order → stages.lookup sid = some st → d ∈ st.dependencies →
    d ∈ order ∧ order.indexOf d < order.indexOf sid

/-- The invariant of the depth-first traversal state: visited marks are
exactly the ordered nodes, the order has no duplicates and is
dependency-closed. -/
def VisitInv (stages : List (String × StageFunction V)) (s : VisitSt) : Prop :=
  (∀ x, x ∈ s.visited ↔ x ∈ s.order) ∧ s.order.Nodup ∧ OrderClosed stages s.order

/-- A one-stage registry used by concrete resolver examples. -/
def stagesOne : List (String × StageFunction Nat) := [("A", stageA)]

/-- A stage with no outputs and no dependencies whose handler succeeds. -/
def stageT : StageFunction Nat :=
  ⟨[], [], "strict", none, none, none, false, .ok 3⟩

/-- A minimal reproduction-mode environment with the single trivial stage. -/
def envTiny : WorkflowEnv Nat :=
  ⟨[("T", stageT)], fsSkip, activeDir, sharedDir, "reproduction", "stop"⟩

/-- Precondition of one visit call of the resolver: enough fuel remains, the
node is registered, the recursion stack is duplicate-free and registered,
every stacked node transitively depends on the node, and the traversal state
satisfies the visit invariant. -/
def VCond (stages : List (String × StageFunction V)) (fuel : Nat) (sid : String)
    (s : VisitSt) : Prop :=
  stages.length + 1 ≤ fuel + s.visiting.length ∧
  (stages.lookup sid).isSome = true ∧
  s.visiting.Nodup ∧
  (∀ v ∈ s.visiting, v ∈ stages.map Prod.fst) ∧
  (∀ v ∈ s.visiting, Relation.TransGen (depEdge stages) v sid) ∧
  VisitInv stages s

/-- Postcondition of one successful visit call: invariant preserved, stack
restored, order extended, the node visited, every new order element reachable
from the node and registered, and the node's whole reachable closure
visited. -/
def VPost (stages : List (String × StageFunction V)) (sid : String)
    (s s' : VisitSt) : Prop :=
  VisitInv stages s' ∧
  s'.visiting = s.visiting ∧
  (∃ l, s'.order = s.order ++ l) ∧
  sid ∈ s'.visited ∧
  (∀ x ∈ s'.order, x ∈ s.order ∨
    (Reaches stages sid x ∧ (stages.lookup x).isSome = true)) ∧
  (∀ x, Reaches stages sid x → x ∈ s'.visited)

/-- Precondition of the dependency loop of the resolver, mirroring VCond for
every listed dependency. -/
def LCond (stages : List (String × StageFunction V)) (fuel : Nat)
    (ds : List String) (s : VisitSt) : Prop :=
  stages.length + 1 ≤ fuel + s.visiting.length ∧
  (∀ d ∈ ds, (stages.lookup d).isSome = true) ∧
  s.visiting.Nodup ∧
  (∀ v ∈ s.visiting, v ∈ stages.map Prod.fst) ∧
  (∀ v ∈ s.visiting, ∀ d ∈ ds, Relation.TransGen (depEdge stages) v d) ∧
  VisitInv stages s

/-- Postcondition of the dependency loop, mirroring VPost for every listed
dependency. -/
def LPost (stages : List (String × StageFunction V)) (ds : List String)
    (s s' : VisitSt) : Prop :=
  VisitInv stages s' ∧
  s'.visiting = s.visiting ∧
  (∃ l, s'.order = s.order ++ l) ∧
  (∀ d ∈ ds, d ∈ s'.visited) ∧
  (∀ x ∈ s'.order, x ∈ s.order ∨
    ∃ d ∈ ds, Reaches stages d x ∧ (stages.lookup x).isSome = true) ∧
  (∀ x d, d ∈ ds → Reaches stages d x → x ∈ s'.visited)


/-!
Theorems.  Each claim of the specification review is settled by one named
theorem below; helper lemmas carry no claim names.
-/

/-- C3: for every tier value and every artifact path whose currently computed
fingerprint equals the reference fingerprint, validate_artifact returns
success immediately, regardless of tier and of any supplied tolerances. -/
theorem validate_artifact_fast_path (fs : FS) (p : PyPath) (ref tier : String)
    (ta tr sth : Option ℚ) (hex : fs.pathExists p = true)
    (hhash : calculate_artifact_hash fs p "sha256" = .ok ref) :
    validate_artifact fs p ref tier ta tr sth = (true, "Exact hash match") := by
  unfold validate_artifact
  rw [hex, hhash]
  simp

/-- Witness for C3 at a concrete file, an unknown tier value and arbitrary
tolerances. -/
theorem validate_artifact_fast_path_witness :
    fsExact.pathExists pTxt = true ∧
    calculate_artifact_hash fsExact pTxt "sha256" = .ok "h1" ∧
    validate_artifact fsExact pTxt "h1" "bogus" (some 1) (some 1) (some 1) =
      (true, "Exact hash match") :=
  ⟨rfl, rfl, validate_artifact_fast_path fsExact pTxt "h1" "bogus" (some 1) (some 1) (some 1) rfl rfl⟩

/-- C4 counterexample: a csv artifact holding the value 0.005 validated
against the recorded fingerprint of an artifact holding 0.0 (distinct bytes,
so distinct fingerprints ha and hb) fails standard validation with absolute
tolerance 0.01, although the values differ by 0.005, which is within the
tolerance accepted by compare_numeric_values. -/
theorem standard_tolerance_counterexample :
    validate_artifact fsCsv pCsv "hb" "standard" (some 0.01) none none =
      (false, "Standard validation failed: specialized comparison did not succeed and hash mismatch") ∧
    compare_numeric_values 0 0.005 (some 0.01) none = true := by
  constructor
  · rfl
  · simp only [compare_numeric_values]
    rw [abs_of_nonpos (by norm_num)]
    norm_num

/-- C4 amended: compare_numeric_values with absolute tolerance 0.01 accepts
values differing by 0.005 and rejects values differing by 0.02, but
validate_standard never invokes the numeric comparison: under the standard
tier, any file artifact whose computed fingerprint differs from the reference
fails validation regardless of the supplied tolerances. -/
theorem standard_tolerance_amended :
    compare_numeric_values 0 0.005 (some 0.01) none = true ∧
    compare_numeric_values 0 0.02 (some 0.01) none = false ∧
    ∀ (fs : FS) (p : PyPath) (ref : String) (ta tr sth : Option ℚ) (h : String),
      fs.isFile p = true → calculate_artifact_hash fs p "sha256" = .ok h → h ≠ ref →
      (validate_artifact fs p ref "standard" ta tr sth).1 = false := by
  refine ⟨?_, ?_, ?_⟩
  · simp only [compare_numeric_values]
    rw [abs_of_nonpos (by norm_num)]
    norm_num
  · simp only [compare_numeric_values]
    rw [abs_of_nonpos (by norm_num)]
    norm_num
  · intro fs p ref ta tr sth h hfile hhash hne
    have hkind : fs.kind p = some .file := by
      simpa [FS.isFile] using hfile
    have hex : fs.pathExists p = true := by
      simp [FS.pathExists, hkind]
    have hbeq : (h == ref) = false := beq_eq_false_iff_ne.mpr hne
    have hstd : ∃ m, validate_standard fs p ref ta tr = .ok (false, m) := by
      unfold validate_standard
      rw [hfile]
      simp only [if_true, hhash]
      rw [hbeq]
      simp only [Bool.false_eq_true, if_false]
      split
      · exact ⟨_, rfl⟩
      · exact ⟨_, rfl⟩
    obtain ⟨m, hm⟩ := hstd
    unfold validate_artifact
    simp [hex, hhash, hbeq, hm]

/-- C4 amended witness: the hash-mismatch hypothesis discharged on the
concrete csv artifact. -/
theorem standard_tolerance_amended_witness :
    fsCsv.isFile pCsv = true ∧
    calculate_artifact_hash fsCsv pCsv "sha256" = .ok "ha" ∧
    (validate_artifact fsCsv pCsv "hb" "standard" (some 0.01) none none).1 = false :=
  ⟨rfl, rfl,
    standard_tolerance_amended.2.2 fsCsv pCsv "hb" (some 0.01) none none "ha" rfl rfl (by decide)⟩

/-- C5 counterexample: invoking validate_artifact directly with the tier
value ignore, on an existing artifact whose fingerprint (ha) does not match
the reference (hb), returns failure with the unknown-type message rather
than an automatic pass. -/
theorem ignore_tier_counterexample :
    validate_artifact fsCsv pCsv "hb" "ignore" none none none =
      (false, "Unknown validation type: ignore") := by
  rfl

/-- C5 amended: a direct invocation with tier ignore on an existing,
non-matching artifact falls into the unknown-validation-type branch and
fails; the automatic pass for ignore exists only in the caller, which
short-circuits before invoking the validator (the per-file loop of
validate_outputs records an Ignored result without touching the pass flag
and never calls validate_artifact for that file). -/
theorem ignore_tier_amended :
    (∀ (fs : FS) (p : PyPath) (ref : String) (ta tr sth : Option ℚ) (h : String),
      fs.pathExists p = true → calculate_artifact_hash fs p "sha256" = .ok h → h ≠ ref →
      validate_artifact fs p ref "ignore" ta tr sth =
        (false, "Unknown validation type: ignore")) ∧
    (∀ (V : Type) (fs : FS) (stage : StageFunction V) (stage_id : String)
      (declRepro : ReproCfg) (a s ek : PyPath) (ecfg : CfgOut) (eis : Bool)
      (rest : List (PyPath × CfgOut × Bool)) (h : String),
      ecfg.hash = some h → ecfg.reproduction.mode = some "ignore" →
      validateFilesLoop fs stage stage_id declRepro a s ((ek, ecfg, eis) :: rest) =
        ((validateFilesLoop fs stage stage_id declRepro a s rest).1, true,
          (⟨stage_id, pathToString (pyJoin (if eis then s else a) ek), "Ignored", "ignore",
            "Validation skipped (ignore mode)"⟩ : VRec) ::
          (validateFilesLoop fs stage stage_id declRepro a s rest).2.2)) := by
  constructor
  · intro fs p ref ta tr sth h hex hhash hne
    have hbeq : (h == ref) = false := beq_eq_false_iff_ne.mpr hne
    unfold validate_artifact
    simp [hex, hhash, hbeq]
  · intro V fs stage stage_id declRepro a s ek ecfg eis rest h hh hm
    rw [validateFilesLoop]
    rw [hh]
    simp [hm]

/-- Witness for the C5 amended claim on the concrete csv artifact with a
mismatching reference hash. -/
theorem ignore_tier_amended_witness :
    fsCsv.pathExists pCsv = true ∧
    validate_artifact fsCsv pCsv "hb" "ignore" none none none =
      (false, "Unknown validation type: ignore") :=
  ⟨rfl, ignore_tier_amended.1 fsCsv pCsv "hb" none none none "ha" rfl rfl (by decide)⟩

/-- C10: validate_artifact is total by construction (it returns a pair of
success flag and message on every input); moreover a nonexistent path fails
before any fingerprint is computed (the result does not depend on the hashing
oracle at all), a fingerprint-computation error under the strict tier fails
with a message naming the cause, and an exception inside the standard or
tolerant tier logic is caught and returned as a failure pair. -/
theorem validate_artifact_total :
    (∀ (fs : FS) (hr : PyPath → String → Except String String) (p : PyPath)
      (ref tier : String) (ta tr sth : Option ℚ),
      fs.pathExists p = false →
      validate_artifact ⟨fs.kind, hr, fs.filesUnder⟩ p ref tier ta tr sth =
        (false, "Artifact does not exist: " ++ pathToString p)) ∧
    (∀ (fs : FS) (p : PyPath) (ref : String) (ta tr sth : Option ℚ) (e : String),
      fs.pathExists p = true → calculate_artifact_hash fs p "sha256" = .error e →
      validate_artifact fs p ref "strict" ta tr sth =
        (false, "Strict validation failed: could not calculate hash - " ++ e)) ∧
    (∀ (fs : FS) (p : PyPath) (ref : String) (ta tr sth : Option ℚ) (e : String),
      fs.pathExists p = true → calculate_artifact_hash fs p "sha256" = .error e →
      validate_artifact fs p ref "standard" ta tr sth =
        (false, "Validation error during standard mode specific check: " ++ e)) ∧
    (∀ (fs : FS) (p : PyPath) (ref : String) (ta tr : Option ℚ) (t : ℚ) (e : String),
      fs.pathExists p = true → calculate_artifact_hash fs p "sha256" = .error e →
      validate_artifact fs p ref "tolerant" ta tr (some t) =
        (false, "Validation error during tolerant mode specific check: " ++ e)) := by
  refine ⟨?_, ?_, ?_, ?_⟩
  · intro fs hr p ref tier ta tr sth hex
    have hex2 : FS.pathExists ⟨fs.kind, hr, fs.filesUnder⟩ p = false := hex
    unfold validate_artifact
    simp [hex2]
  · intro fs p ref ta tr sth e hex herr
    unfold validate_artifact
    simp [hex, herr]
  · intro fs p ref ta tr sth e hex herr
    have hstd : validate_standard fs p ref ta tr = .error e := by
      unfold validate_standard
      split <;> simp [herr]
    unfold validate_artifact
    simp [hex, herr, hstd]
  · intro fs p ref ta tr t e hex herr
    have htol : validate_tolerant fs p ref (some t) = .error e := by
      unfold validate_tolerant
      simp [herr]
    unfold validate_artifact
    simp [hex, herr, htol]

/-- Witness for C10: the nonexistence case on a path absent from the
filesystem, and the fingerprint-error cases on a file whose hashing raises. -/
theorem validate_artifact_total_witness :
    fsExact.pathExists pCsv = false ∧
    fsErr.pathExists pTxt = true ∧
    calculate_artifact_hash fsErr pTxt "sha256" = .error "io error" ∧
    validate_artifact ⟨fsExact.kind, fsErr.hashRes, fsExact.filesUnder⟩ pCsv "h1" "strict"
      none none none = (false, "Artifact does not exist: " ++ pathToString pCsv) ∧
    validate_artifact fsErr pTxt "h1" "strict" none none none =
      (false, "Strict validation failed: could not calculate hash - io error") ∧
    validate_artifact fsErr pTxt "h1" "standard" none none none =
      (false, "Validation error during standard mode specific check: io error") ∧
    validate_artifact fsErr pTxt "h1" "tolerant" none none (some 1) =
      (false, "Validation error during tolerant mode specific check: io error") :=
  ⟨rfl, rfl, rfl,
    validate_artifact_total.1 fsExact fsErr.hashRes pCsv "h1" "strict" none none none rfl,
    validate_artifact_total.2.1 fsErr pTxt "h1" none none none "io error" rfl rfl,
    validate_artifact_total.2.2.1 fsErr pTxt "h1" none none none "io error" rfl rfl,
    validate_artifact_total.2.2.2 fsErr pTxt "h1" none none 1 "io error" rfl rfl⟩

/-- Concatenating the chunks of a content recovers the content. -/
theorem fileChunks_join (l : List Char) : (fileChunks l).flatten = l := by
  rw [fileChunks]
  split
  · rename_i h
    simp [h]
  · rename_i h
    have ih : (fileChunks (l.drop 8192)).flatten = l.drop 8192 :=
      fileChunks_join (l.drop 8192)
    simp [ih]
termination_by l.length
decreasing_by
  rename_i h
  have h1 : 0 < l.length := List.length_pos.mpr h
  simp only [List.length_drop]
  omega

/-- Chunking is injective, hence so is the file fingerprint. -/
theorem fileChunks_injective : Function.Injective fileChunks := by
  intro l1 l2 h
  rw [← fileChunks_join l1, h, fileChunks_join]

/-- The sorted file list is strictly sorted on the path keys when the keys
are distinct. -/
theorem mergeSort_strictSorted (l : List (String × List Char))
    (hnd : (l.map Prod.fst).Nodup) :
    List.Sorted (fun a b : String × List Char => a.1 < b.1) (l.mergeSort relPathLe) := by
  have htrans : ∀ a b c : String × List Char,
      relPathLe a b = true → relPathLe b c = true → relPathLe a c = true := by
    intro a b c h1 h2
    simp only [relPathLe, decide_eq_true_eq] at *
    exact le_trans h1 h2
  have htotal : ∀ a b : String × List Char, (relPathLe a b || relPathLe b a) = true := by
    intro a b
    simp only [relPathLe, Bool.or_eq_true, decide_eq_true_eq]
    exact le_total a.1 b.1
  have hs := List.sorted_mergeSort htrans htotal l
  have hperm : (l.mergeSort relPathLe).Perm l := List.mergeSort_perm l relPathLe
  have hnd2 : ((l.mergeSort relPathLe).map Prod.fst).Nodup :=
    (List.Perm.nodup_iff (hperm.map Prod.fst)).mpr hnd
  have hne : (l.mergeSort relPathLe).Pairwise (fun a b => a.1 ≠ b.1) :=
    (List.pairwise_map).mp hnd2
  have hle : (l.mergeSort relPathLe).Pairwise (fun a b : String × List Char => a.1 ≤ b.1) := by
    refine hs.imp ?_
    intro a b hab
    simpa [relPathLe] using hab
  exact (hle.and hne).imp (fun hab => lt_of_le_of_ne hab.1 hab.2)

/-- Two enumerations of the same directory content sort identically. -/
theorem dir_sort_eq (l₁ l₂ : List (String × List Char)) (hperm : l₁.Perm l₂)
    (hnd : (l₁.map Prod.fst).Nodup) :
    l₁.mergeSort relPathLe = l₂.mergeSort relPathLe := by
  haveI : IsAntisymm (String × List Char) (fun a b => a.1 < b.1) :=
    ⟨fun a b h1 h2 => absurd h1 (lt_asymm h2)⟩
  refine List.eq_of_perm_of_sorted ?_ (mergeSort_strictSorted l₁ hnd) ?_
  · exact (List.mergeSort_perm l₁ relPathLe).trans
      (hperm.trans (List.mergeSort_perm l₂ relPathLe).symm)
  · exact mergeSort_strictSorted l₂ ((List.Perm.nodup_iff (hperm.map Prod.fst)).mp hnd)

/-- The keys of the digested entry list are the keys of the sorted file
list. -/
theorem dirEntries_keys (l : List (String × List Char)) :
    ((l.mergeSort relPathLe).map (fun e => (e.1, calculate_file_hash e.2))).map Prod.fst =
      (l.mergeSort relPathLe).map Prod.fst := by
  simp [List.map_map]

/-- C6: the directory fingerprint feeds, for every contained file in order
sorted by relative path string, the relative path and then the file
fingerprint into one running digest (this is the definition of
calculate_dir_hash); consequently it is deterministic — any enumeration
order of the same names with the same bytes produces the identical
fingerprint — while renaming one file without changing its content changes
the fingerprint, and changing one file's content without renaming changes
it. -/
theorem dir_hash_properties :
    (∀ (l₁ l₂ : List (String × List Char)), l₁.Perm l₂ → (l₁.map Prod.fst).Nodup →
      calculate_dir_hash l₁ = calculate_dir_hash l₂) ∧
    (∀ (l₀ l₁ : List (String × List Char)) (p p' : String) (c : List Char),
      ((l₀ ++ (p, c) :: l₁).map Prod.fst).Nodup →
      p' ∉ (l₀ ++ l₁).map Prod.fst → p ≠ p' →
      calculate_dir_hash (l₀ ++ (p', c) :: l₁) ≠ calculate_dir_hash (l₀ ++ (p, c) :: l₁)) ∧
    (∀ (l₀ l₁ : List (String × List Char)) (p : String) (c c' : List Char),
      ((l₀ ++ (p, c) :: l₁).map Prod.fst).Nodup → c ≠ c' →
      calculate_dir_hash (l₀ ++ (p, c') :: l₁) ≠ calculate_dir_hash (l₀ ++ (p, c) :: l₁)) := by
  refine ⟨?_, ?_, ?_⟩
  · intro l₁ l₂ hperm hnd
    unfold calculate_dir_hash
    rw [dir_sort_eq l₁ l₂ hperm hnd]
  · intro l₀ l₁ p p' c hnd hp' hne heq
    unfold calculate_dir_hash at heq
    have hmeq : ((l₀ ++ (p', c) :: l₁).mergeSort relPathLe).map
        (fun e => (e.1, calculate_file_hash e.2)) =
        ((l₀ ++ (p, c) :: l₁).mergeSort relPathLe).map
        (fun e => (e.1, calculate_file_hash e.2)) := by
      injection heq
    have h1 := congrArg (List.map Prod.fst) hmeq
    rw [dirEntries_keys, dirEntries_keys] at h1
    have e1 : (List.map Prod.fst (l₀ ++ (p', c) :: l₁)).Perm
        (List.map Prod.fst ((l₀ ++ (p', c) :: l₁).mergeSort relPathLe)) :=
      ((List.mergeSort_perm _ relPathLe).map Prod.fst).symm
    have e2 : (List.map Prod.fst ((l₀ ++ (p, c) :: l₁).mergeSort relPathLe)).Perm
        (List.map Prod.fst (l₀ ++ (p, c) :: l₁)) :=
      (List.mergeSort_perm _ relPathLe).map Prod.fst
    have hkeys : (List.map Prod.fst (l₀ ++ (p', c) :: l₁)).Perm
        (List.map Prod.fst (l₀ ++ (p, c) :: l₁)) := e1.trans (h1 ▸ e2)
    have hpmem : p ∈ List.map Prod.fst (l₀ ++ (p, c) :: l₁) := by simp
    have hpmem2 : p ∈ List.map Prod.fst (l₀ ++ (p', c) :: l₁) := hkeys.mem_iff.mpr hpmem
    rw [List.map_append, List.map_cons] at hpmem2
    rw [List.map_append, List.map_cons] at hnd
    rcases List.mem_append.mp hpmem2 with hA | hB
    · exact (List.disjoint_of_nodup_append hnd) hA (by simp)
    · rcases List.mem_cons.mp hB with hB1 | hC
      · exact hne hB1
      · have hnd1 : (p :: List.map Prod.fst l₁).Nodup := (List.nodup_append.mp hnd).2.1
        exact (List.nodup_cons.mp hnd1).1 hC
  · intro l₀ l₁ p c c' hnd hne heq
    unfold calculate_dir_hash at heq
    have hmeq : ((l₀ ++ (p, c') :: l₁).mergeSort relPathLe).map
        (fun e => (e.1, calculate_file_hash e.2)) =
        ((l₀ ++ (p, c) :: l₁).mergeSort relPathLe).map
        (fun e => (e.1, calculate_file_hash e.2)) := by
      injection heq
    have hm0 : ((p : String), calculate_file_hash c) ∈
        (l₀ ++ (p, c) :: l₁).map (fun e => (e.1, calculate_file_hash e.2)) := by
      refine List.mem_map.mpr ⟨(p, c), by simp, rfl⟩
    have hm1 : ((p : String), calculate_file_hash c) ∈
        (l₀ ++ (p, c') :: l₁).map (fun e => (e.1, calculate_file_hash e.2)) := by
      have pa : ((l₀ ++ (p, c) :: l₁).map (fun e => (e.1, calculate_file_hash e.2))).Perm
          (((l₀ ++ (p, c) :: l₁).mergeSort relPathLe).map (fun e => (e.1, calculate_file_hash e.2))) :=
        ((List.mergeSort_perm _ relPathLe).map _).symm
      have pb : (((l₀ ++ (p, c') :: l₁).mergeSort relPathLe).map
          (fun e => (e.1, calculate_file_hash e.2))).Perm
          ((l₀ ++ (p, c') :: l₁).map (fun e => (e.1, calculate_file_hash e.2))) :=
        (List.mergeSort_perm _ relPathLe).map _
      exact pb.mem_iff.mp (hmeq ▸ (pa.mem_iff.mp hm0))
    obtain ⟨e, hemem, hef⟩ := List.mem_map.mp hm1
    have he1 : e.1 = p := congrArg Prod.fst hef
    have he2 : calculate_file_hash e.2 = calculate_file_hash c := congrArg Prod.snd hef
    rw [List.map_append, List.map_cons] at hnd
    rcases List.mem_append.mp hemem with hA | hB
    · have : p ∈ List.map Prod.fst l₀ := he1 ▸ List.mem_map_of_mem Prod.fst hA
      exact (List.disjoint_of_nodup_append hnd) this (by simp)
    · rcases List.mem_cons.mp hB with hB1 | hC
      · have h3 : e.2 = c' := congrArg Prod.snd hB1
        rw [h3] at he2
        have hcc : c' = c :=
          fileChunks_injective (by simpa [calculate_file_hash, Fp.file.injEq] using he2)
        exact hne hcc.symm
      · have : p ∈ List.map Prod.fst l₁ := he1 ▸ List.mem_map_of_mem Prod.fst hC
        have hnd1 : (p :: List.map Prod.fst l₁).Nodup := (List.nodup_append.mp hnd).2.1
        exact (List.nodup_cons.mp hnd1).1 this

/-- Witness for C6: the two-file directory hashed in either enumeration
order, the hypotheses discharged on concrete lists. -/
theorem dir_hash_properties_witness :
    ([(("a" : String), [('x' : Char)]), ("b", ['y'])]).Perm [("b", ['y']), ("a", ['x'])] ∧
    (([(("a" : String), [('x' : Char)]), ("b", ['y'])]).map Prod.fst).Nodup ∧
    calculate_dir_hash [("a", ['x']), ("b", ['y'])] =
      calculate_dir_hash [("b", ['y']), ("a", ['x'])] :=
  ⟨by decide, by decide, dir_hash_properties.1 _ _ (by decide) (by decide)⟩

/-- C9 counterexample: for the bare filename data.txt (no separator), the
scope resolution inside the skip check treats the declaration as mode-scoped
(shared = false), while the claim asserts that every site, the skip check
included, treats a bare filename as shared — as get_output_scope_and_path
indeed does. -/
theorem scope_heuristic_counterexample :
    hasSeparator pTxt = false ∧
    get_output_scope_and_path (OutputDecl.strD pTxt) = (some pTxt, true) ∧
    checkUnchangedScopePath (OutputDecl.strD pTxt) = some (pTxt, false, ReproCfg.empty) :=
  ⟨rfl, rfl, rfl⟩

/-- C9 amended: the bare-filename-is-shared heuristic governs
get_output_scope_and_path, record-mode hashing (update_output_hashes) and
verify-mode validation (validate_outputs) — a declaration without an
explicit shared flag is shared exactly when its path is truthy (for dicts)
and has no separator — but the skip check (check_outputs_unchanged) applies
no heuristic at all: a string declaration is always mode-scoped there, and a
dict declaration uses only its explicit flag, defaulting to mode-scoped. -/
theorem scope_heuristic_amended :
    (∀ p : PyPath,
      get_output_scope_and_path (OutputDecl.strD p) = (some p, !hasSeparator p) ∧
      (updateHashesScope (OutputDecl.strD p)).2.2 = !hasSeparator p ∧
      validateOutputsScope (OutputDecl.strD p) = some (p, !hasSeparator p, ReproCfg.empty) ∧
      checkUnchangedScopePath (OutputDecl.strD p) = some (p, false, ReproCfg.empty)) ∧
    (∀ (p : PyPath) (r : ReproCfg) (hm : Option String),
      (get_output_scope_and_path (OutputDecl.dictD p none r hm)).2 =
        (pathTruthy p && !hasSeparator p) ∧
      (updateHashesScope (OutputDecl.dictD p none r hm)).2.2 =
        (pathTruthy p && !hasSeparator p) ∧
      validateOutputsScope (OutputDecl.dictD p none r hm) =
        some (p, pathTruthy p && !hasSeparator p, r) ∧
      checkUnchangedScopePath (OutputDecl.dictD p none r hm) = some (p, false, r)) := by
  constructor
  · intro p
    exact ⟨rfl, rfl, rfl, rfl⟩
  · intro p r hm
    exact ⟨rfl, rfl, rfl, rfl⟩

/-- Caching an outcome does not touch the ledger. -/
theorem cacheReturn_config (st : RunState V) (sid : String) (t : RunTriple V) :
    (cacheReturn st sid t).1.config = st.config := rfl

/-- In reproduction mode, neither run_stage nor its dependency loop changes
the ledger, on any path including raised exceptions. -/
theorem config_frame_mutual (env : WorkflowEnv V) (hmode : env.mode = "reproduction") :
    ∀ fuel : Nat,
      (∀ sid st, ((run_stage env fuel sid st).1).config = st.config) ∧
      (∀ deps flag st, ((runDeps env fuel deps flag st).1).config = st.config) := by
  have hexp : (env.mode == "experiment") = false := by rw [hmode]; decide
  have hrep : (env.mode == "reproduction") = true := by rw [hmode]; decide
  intro fuel
  induction fuel with
  | zero =>
    have hP : ∀ (sid : String) (st : RunState V),
        ((run_stage env 0 sid st).1).config = st.config := by
      intro sid st
      rw [run_stage]
      split
      · rfl
      · split
        · rfl
        · rfl
    refine ⟨hP, ?_⟩
    intro deps
    induction deps with
    | nil =>
      intro flag st
      rw [runDeps]
    | cons d rest ihd =>
      intro flag st
      rw [runDeps]
      rcases hrs : run_stage env 0 d st with ⟨st1, r⟩
      have h1 := hP d st
      rw [hrs] at h1
      cases r with
      | error e => simpa [hrs] using h1
      | ok t =>
        simp only [hrs]
        exact (ihd _ st1).trans h1
  | succ n ih =>
    obtain ⟨ihP, ihQ⟩ := ih
    have hP : ∀ (sid : String) (st : RunState V),
        ((run_stage env (n + 1) sid st).1).config = st.config := by
      intro sid st
      rw [run_stage]
      split
      · rfl
      · split
        · rfl
        · rename_i sf _
          rcases hrd : runDeps env n sf.dependencies false st with ⟨st1, r⟩
          have hq := ihQ sf.dependencies false st
          rw [hrd] at hq
          cases r with
          | error e => simpa [hrd] using hq
          | ok depsRan =>
            simp only [hrd]
            split
            · exact (cacheReturn_config _ _ _).trans hq
            · cases hh : sf.handler with
              | error e => simpa [hh] using hq
              | ok v =>
                simp only [hh]
                split
                · exact (cacheReturn_config _ _ _).trans hq
                · rw [hexp]
                  simp only [Bool.false_eq_true, if_false, hrep, if_true]
                  split
                  · exact hq
                  · exact (cacheReturn_config _ _ _).trans hq
    refine ⟨hP, ?_⟩
    intro deps
    induction deps with
    | nil =>
      intro flag st
      rw [runDeps]
    | cons d rest ihd =>
      intro flag st
      rw [runDeps]
      rcases hrs : run_stage env (n + 1) d st with ⟨st1, r⟩
      have h1 := hP d st
      rw [hrs] at h1
      cases r with
      | error e => simpa [hrs] using h1
      | ok t =>
        simp only [hrs]
        exact (ihd _ st1).trans h1

/-- The run loop preserves the ledger in reproduction mode. -/
theorem workflowLoop_config_frame (env : WorkflowEnv V) (hmode : env.mode = "reproduction")
    (fuel : Nat) :
    ∀ (plan : List String) (st : RunState V) (results : List (String × Option V)) (failed : Bool),
      ((workflowLoop env fuel plan st results failed).1).config = st.config := by
  intro plan
  induction plan with
  | nil =>
    intro st results failed
    rw [workflowLoop]
  | cons sid rest ih =>
    intro st results failed
    rw [workflowLoop]
    rcases hrs : run_stage env fuel sid st with ⟨st1, r⟩
    have h1 := (config_frame_mutual env hmode fuel).1 sid st
    rw [hrs] at h1
    cases r with
    | error e =>
      simp only [hrs]
      split
      · exact h1
      · exact (ih st1 _ true).trans h1
    | ok t =>
      simp only [hrs]
      split
      · split
        · exact h1
        · exact (ih st1 _ true).trans h1
      · exact (ih st1 _ failed).trans h1

/-- C7: in verify (reproduction) mode, running a stage never creates,
updates or deletes any ledger entry — the run state's configuration is
returned exactly as it was, on every path including raised exceptions — and
a whole verify-mode run leaves the ledger identical to the initial one and
does not save the configuration; ledger entries are thus written only in
record (experiment) mode. -/
theorem ledger_frame_verify_mode :
    (∀ (V : Type) (env : WorkflowEnv V) (fuel : Nat) (sid : String) (st : RunState V),
      env.mode = "reproduction" →
      ((run_stage env fuel sid st).1).config = st.config) ∧
    (∀ (V : Type) (env : WorkflowEnv V) (config0 : CrespConfig) (target : Option String)
      (out : RunOutcome V),
      env.mode = "reproduction" → workflowRun env config0 target = .ok out →
      out.finalState.config = config0 ∧ out.config_saved = false) := by
  constructor
  · intro V env fuel sid st hmode
    exact (config_frame_mutual env hmode fuel).1 sid st
  · intro V env config0 target out hmode hrun
    unfold workflowRun at hrun
    rcases hres : resolve_execution_order env.stages target with e | plan
    · rw [hres] at hrun
      cases hrun
    · rw [hres] at hrun
      simp only [Except.ok.injEq] at hrun
      have hcfg := workflowLoop_config_frame env hmode (env.stages.length + 1) plan
        ⟨[], [], [], [], config0, []⟩ [] false
      constructor
      · rw [← hrun]
        exact hcfg
      · rw [← hrun]
        simp [hmode]

/-- Witness for C7: the trivial reproduction-mode environment, at the level
of one stage run and of a whole run. -/
theorem ledger_frame_verify_mode_witness :
    ((run_stage envTiny 2 "T" ⟨[], [], [], [], cfgA, []⟩).1).config = cfgA ∧
    (workflowRun envTiny cfgA none).map (fun o => (o.finalState.config, o.config_saved)) =
      .ok (cfgA, false) := by
  constructor
  · exact ledger_frame_verify_mode.1 Nat envTiny 2 "T" _ rfl
  · cases hrun : workflowRun envTiny cfgA none with
    | error e =>
      have hres : resolve_execution_order envTiny.stages none = .ok ["T"] := by
        simp [resolve_execution_order, visitAll, visitStage, visitList, envTiny, stageT,
          Except.map]
      unfold workflowRun at hrun
      rw [hres] at hrun
      cases hrun
    | ok out =>
      have h2 := ledger_frame_verify_mode.2 Nat envTiny cfgA none out rfl hrun
      simp [Except.map, h2.1, h2.2]

/-- Dict assignment semantics of setAssoc: the assigned key maps to the new
value and every other key is unchanged. -/
theorem setAssoc_lookup {β : Type _} (l : List (String × β)) (k : String) (v : β) (i : String) :
    (setAssoc l k v).lookup i = if i = k then some v else l.lookup i := by
  induction l with
  | nil =>
    by_cases hik : i = k
    · have hb : (i == k) = true := beq_iff_eq.mpr hik
      simp [setAssoc, List.lookup, hb, hik]
    · have hb : (i == k) = false := beq_eq_false_iff_ne.mpr hik
      simp [setAssoc, List.lookup, hb, hik]
  | cons a rest ih =>
    rcases a with ⟨ak, av⟩
    rw [setAssoc]
    by_cases hak : ak = k
    · have hb : (ak == k) = true := beq_iff_eq.mpr hak
      by_cases hik : i = k
      · have hb2 : (i == k) = true := beq_iff_eq.mpr hik
        simp [hb, List.lookup, hb2, hik]
      · have hb2 : (i == k) = false := beq_eq_false_iff_ne.mpr hik
        have hb3 : (i == ak) = false := beq_eq_false_iff_ne.mpr (fun h => hik (h.trans hak))
        simp [hb, List.lookup, hb2, hb3, hik]
    · have hb : (ak == k) = false := beq_eq_false_iff_ne.mpr hak
      by_cases hia : i = ak
      · have hb3 : (i == ak) = true := beq_iff_eq.mpr hia
        have hik : i ≠ k := fun h => hak (hia.symm.trans h)
        simp [hb, List.lookup, hb3, hik]
      · have hb3 : (i == ak) = false := beq_eq_false_iff_ne.mpr hia
        simp [hb, List.lookup, hb3, ih]

/-- A dependency edge extends reachability on the left. -/
theorem reaches_head {env : WorkflowEnv V} {x d id : String} {sf : StageFunction V}
    (hl : env.stages.lookup x = some sf) (hd : d ∈ sf.dependencies)
    (hr : Reaches env.stages d id) : Reaches env.stages x id :=
  Relation.ReflTransGen.head ⟨sf, hl, hd⟩ hr

/-- A stage reaching itself through one of its dependencies is a cycle. -/
theorem cycle_of_dep_reaches {env : WorkflowEnv V} {x d : String} {sf : StageFunction V}
    (hl : env.stages.lookup x = some sf) (hd : d ∈ sf.dependencies)
    (hr : Reaches env.stages d x) : Relation.TransGen (depEdge env.stages) x x :=
  Relation.TransGen.head' ⟨sf, hl, hd⟩ hr

/-- Caching growth and handler-call accounting of a successful run: the run
cache only grows, and the handler calls appended by the run are distinct
stages that were uncached before the run, are cached after it, and lie in
the transitive dependency closure of the stage being run.  Requires an
acyclic stage set (the only graphs the engine executes, since the resolver
rejects cycles). -/
theorem run_growth_mutual (env : WorkflowEnv V) (hacyc : AcyclicStages env.stages) :
    ∀ fuel : Nat,
      (∀ sid st st' t, run_stage env fuel sid st = (st', .ok t) →
        (∀ id, (st.run_cache.lookup id).isSome = true →
          (st'.run_cache.lookup id).isSome = true) ∧
        ∃ Δ, st'.handlerCalls = st.handlerCalls ++ Δ ∧ Δ.Nodup ∧
          ∀ id ∈ Δ, st.run_cache.lookup id = none ∧
            (st'.run_cache.lookup id).isSome = true ∧ Reaches env.stages sid id) ∧
      (∀ deps flag st st' b, runDeps env fuel deps flag st = (st', .ok b) →
        (∀ id, (st.run_cache.lookup id).isSome = true →
          (st'.run_cache.lookup id).isSome = true) ∧
        ∃ Δ, st'.handlerCalls = st.handlerCalls ++ Δ ∧ Δ.Nodup ∧
          ∀ id ∈ Δ, st.run_cache.lookup id = none ∧
            (st'.run_cache.lookup id).isSome = true ∧
            ∃ d ∈ deps, Reaches env.stages d id) := by
  have hsetSome : ∀ (l : List (String × RunTriple V)) (k : String) (v : RunTriple V) (i : String),
      (l.lookup i).isSome = true → ((setAssoc l k v).lookup i).isSome = true := by
    intro l k v i h
    rw [setAssoc_lookup]
    split
    · rfl
    · exact h
  have hsetSelf : ∀ (l : List (String × RunTriple V)) (k : String) (v : RunTriple V),
      ((setAssoc l k v).lookup k).isSome = true := by
    intro l k v
    rw [setAssoc_lookup]
    simp
  have htrivΔ : ∀ st : RunState V,
      ∃ Δ, st.handlerCalls = st.handlerCalls ++ Δ ∧ Δ.Nodup ∧
        ∀ id ∈ Δ, st.run_cache.lookup id = none ∧
          (st.run_cache.lookup id).isSome = true ∧ False := by
    intro st
    exact ⟨[], (List.append_nil _).symm, List.nodup_nil,
      fun id hid => absurd hid (List.not_mem_nil id)⟩
  intro fuel
  induction fuel with
  | zero =>
    have hP : ∀ (sid : String) (st st' : RunState V) (t : RunTriple V),
        run_stage env 0 sid st = (st', .ok t) →
        (∀ id, (st.run_cache.lookup id).isSome = true →
          (st'.run_cache.lookup id).isSome = true) ∧
        ∃ Δ, st'.handlerCalls = st.handlerCalls ++ Δ ∧ Δ.Nodup ∧
          ∀ id ∈ Δ, st.run_cache.lookup id = none ∧
            (st'.run_cache.lookup id).isSome = true ∧ Reaches env.stages sid id := by
      intro sid st st' t heq
      rw [run_stage] at heq
      split at heq
      · injection heq with h1 h2
        subst h1
        refine ⟨fun id h => h, [], (List.append_nil _).symm, List.nodup_nil,
          fun id hid => absurd hid (List.not_mem_nil id)⟩
      · split at heq
        · injection heq with h1 h2
          injection h2
        · injection heq with h1 h2
          injection h2
    refine ⟨hP, ?_⟩
    intro deps
    induction deps with
    | nil =>
      intro flag st st' b heq
      rw [runDeps] at heq
      injection heq with h1 h2
      subst h1
      refine ⟨fun id h => h, [], (List.append_nil _).symm, List.nodup_nil,
        fun id hid => absurd hid (List.not_mem_nil id)⟩
    | cons d rest ihd =>
      intro flag st st' b heq
      rw [runDeps] at heq
      rcases hrs : run_stage env 0 d st with ⟨st1, r⟩
      rw [hrs] at heq
      simp only [] at heq
      cases r with
      | error e =>
        injection heq with h1 h2
        injection h2
      | ok t =>
        obtain ⟨hg1, Δ1, hcall1, hnd1, hcond1⟩ := hP d st st1 t hrs
        obtain ⟨hg2, Δ2, hcall2, hnd2, hcond2⟩ := ihd _ st1 st' b heq
        refine ⟨fun id h => hg2 id (hg1 id h), Δ1 ++ Δ2, ?_, ?_, ?_⟩
        · rw [hcall2, hcall1, List.append_assoc]
        · refine List.Nodup.append hnd1 hnd2 ?_
          intro id hid1 hid2
          have h1 := (hcond1 id hid1).2.1
          have h2 := (hcond2 id hid2).1
          rw [h2] at h1
          cases h1
        · intro id hid
          rcases List.mem_append.mp hid with h1 | h2
          · obtain ⟨ha, hb, hc⟩ := hcond1 id h1
            exact ⟨ha, hg2 id hb, d, List.mem_cons_self d rest, hc⟩
          · obtain ⟨ha, hb, hc⟩ := hcond2 id h2
            refine ⟨?_, hb, ?_⟩
            · rcases hcache : st.run_cache.lookup id with _ | w
              · rfl
              · have := hg1 id (by rw [hcache]; rfl)
                rw [ha] at this
                cases this
            · obtain ⟨d', hd', hr'⟩ := hc
              exact ⟨d', List.mem_cons_of_mem d hd', hr'⟩
  | succ n ih =>
    obtain ⟨ihP, ihQ⟩ := ih
    have hP : ∀ (sid : String) (st st' : RunState V) (t : RunTriple V),
        run_stage env (n + 1) sid st = (st', .ok t) →
        (∀ id, (st.run_cache.lookup id).isSome = true →
          (st'.run_cache.lookup id).isSome = true) ∧
        ∃ Δ, st'.handlerCalls = st.handlerCalls ++ Δ ∧ Δ.Nodup ∧
          ∀ id ∈ Δ, st.run_cache.lookup id = none ∧
            (st'.run_cache.lookup id).isSome = true ∧ Reaches env.stages sid id := by
      intro sid st st' t heq
      rw [run_stage] at heq
      split at heq
      · injection heq with h1 h2
        subst h1
        refine ⟨fun id h => h, [], (List.append_nil _).symm, List.nodup_nil,
          fun id hid => absurd hid (List.not_mem_nil id)⟩
      · rename_i hmiss
        split at heq
        · injection heq with h1 h2
          injection h2
        · rename_i sf hlook
          rcases hrd : runDeps env n sf.dependencies false st with ⟨st1, r⟩
          rw [hrd] at heq
          simp only [] at heq
          cases r with
          | error e =>
            injection heq with h1 h2
            injection h2
          | ok depsRan =>
            simp only [] at heq
            obtain ⟨hg1, Δ1, hcall1, hnd1, hcond1⟩ := ihQ sf.dependencies false st st1 depsRan hrd
            have hreach1 : ∀ id ∈ Δ1, Reaches env.stages sid id := by
              intro id hid
              obtain ⟨d', hd', hr'⟩ := (hcond1 id hid).2.2
              exact reaches_head hlook hd' hr'
            have hsidnone : st.run_cache.lookup sid = none := by
              rcases hc : st.run_cache.lookup sid with _ | w
              · rfl
              · rw [hc] at hmiss
                cases hmiss
            have hsidninD : sid ∉ Δ1 := by
              intro hin
              obtain ⟨d', hd', hr'⟩ := (hcond1 sid hin).2.2
              exact hacyc sid (cycle_of_dep_reaches hlook hd' hr')
            have hstep : ∀ (stx : RunState V) (tx : RunTriple V),
                cacheReturn stx sid tx = (st', .ok t) →
                stx.run_cache = st1.run_cache →
                stx.handlerCalls = st1.handlerCalls →
                (∀ id, (st.run_cache.lookup id).isSome = true →
                  (st'.run_cache.lookup id).isSome = true) ∧
                ∃ Δ, st'.handlerCalls = st.handlerCalls ++ Δ ∧ Δ.Nodup ∧
                  ∀ id ∈ Δ, st.run_cache.lookup id = none ∧
                    (st'.run_cache.lookup id).isSome = true ∧ Reaches env.stages sid id := by
              intro stx tx hret hcache hcalls
              unfold cacheReturn at hret
              injection hret with h1 h2
              subst h1
              refine ⟨?_, Δ1, ?_, hnd1, ?_⟩
              · intro id h
                show ((setAssoc stx.run_cache sid tx).lookup id).isSome = true
                rw [hcache]
                exact hsetSome _ _ _ _ (hg1 id h)
              · show stx.handlerCalls = st.handlerCalls ++ Δ1
                rw [hcalls, hcall1]
              · intro id hid
                obtain ⟨ha, hb, _⟩ := hcond1 id hid
                refine ⟨ha, ?_, hreach1 id hid⟩
                show ((setAssoc stx.run_cache sid tx).lookup id).isSome = true
                rw [hcache]
                exact hsetSome _ _ _ _ hb
            have hstepH : ∀ (stx : RunState V) (tx : RunTriple V),
                cacheReturn stx sid tx = (st', .ok t) →
                stx.run_cache = st1.run_cache →
                stx.handlerCalls = st1.handlerCalls ++ [sid] →
                (∀ id, (st.run_cache.lookup id).isSome = true →
                  (st'.run_cache.lookup id).isSome = true) ∧
                ∃ Δ, st'.handlerCalls = st.handlerCalls ++ Δ ∧ Δ.Nodup ∧
                  ∀ id ∈ Δ, st.run_cache.lookup id = none ∧
                    (st'.run_cache.lookup id).isSome = true ∧ Reaches env.stages sid id := by
              intro stx tx hret hcache hcalls
              unfold cacheReturn at hret
              injection hret with h1 h2
              subst h1
              refine ⟨?_, Δ1 ++ [sid], ?_, ?_, ?_⟩
              · intro id h
                show ((setAssoc stx.run_cache sid tx).lookup id).isSome = true
                rw [hcache]
                exact hsetSome _ _ _ _ (hg1 id h)
              · show stx.handlerCalls = st.handlerCalls ++ (Δ1 ++ [sid])
                rw [hcalls, hcall1, List.append_assoc]
              · exact List.Nodup.append hnd1 (List.nodup_singleton sid)
                  (fun x hx hx2 => absurd ((List.mem_singleton.mp hx2) ▸ hx) hsidninD)
              · intro id hid
                rcases List.mem_append.mp hid with h1 | h2
                · obtain ⟨ha, hb, _⟩ := hcond1 id h1
                  refine ⟨ha, ?_, hreach1 id h1⟩
                  show ((setAssoc stx.run_cache sid tx).lookup id).isSome = true
                  rw [hcache]
                  exact hsetSome _ _ _ _ hb
                · rw [List.mem_singleton.mp h2]
                  refine ⟨hsidnone, ?_, Relation.ReflTransGen.refl⟩
                  show ((setAssoc stx.run_cache sid tx).lookup sid).isSome = true
                  exact hsetSelf _ _ _
            split at heq
            · exact hstep _ _ heq rfl rfl
            · split at heq
              · injection heq with h1 h2
                injection h2
              · split at heq
                · exact hstepH _ _ heq rfl rfl
                · split at heq
                  · exact hstepH _ _ heq rfl rfl
                  · split at heq
                    · split at heq
                      · injection heq with h1 h2
                        injection h2
                      · exact hstepH _ _ heq rfl rfl
                    · exact hstepH _ _ heq rfl rfl
    refine ⟨hP, ?_⟩
    intro deps
    induction deps with
    | nil =>
      intro flag st st' b heq
      rw [runDeps] at heq
      injection heq with h1 h2
      subst h1
      refine ⟨fun id h => h, [], (List.append_nil _).symm, List.nodup_nil,
        fun id hid => absurd hid (List.not_mem_nil id)⟩
    | cons d rest ihd =>
      intro flag st st' b heq
      rw [runDeps] at heq
      rcases hrs : run_stage env (n + 1) d st with ⟨st1, r⟩
      rw [hrs] at heq
      simp only [] at heq
      cases r with
      | error e =>
        injection heq with h1 h2
        injection h2
      | ok t =>
        obtain ⟨hg1, Δ1, hcall1, hnd1, hcond1⟩ := hP d st st1 t hrs
        obtain ⟨hg2, Δ2, hcall2, hnd2, hcond2⟩ := ihd _ st1 st' b heq
        refine ⟨fun id h => hg2 id (hg1 id h), Δ1 ++ Δ2, ?_, ?_, ?_⟩
        · rw [hcall2, hcall1, List.append_assoc]
        · refine List.Nodup.append hnd1 hnd2 ?_
          intro id hid1 hid2
          have h1 := (hcond1 id hid1).2.1
          have h2 := (hcond2 id hid2).1
          rw [h2] at h1
          cases h1
        · intro id hid
          rcases List.mem_append.mp hid with h1 | h2
          · obtain ⟨ha, hb, hc⟩ := hcond1 id h1
            exact ⟨ha, hg2 id hb, d, List.mem_cons_self d rest, hc⟩
          · obtain ⟨ha, hb, hc⟩ := hcond2 id h2
            refine ⟨?_, hb, ?_⟩
            · rcases hcache : st.run_cache.lookup id with _ | w
              · rfl
              · have := hg1 id (by rw [hcache]; rfl)
                rw [ha] at this
                cases this
            · obtain ⟨d', hd', hr'⟩ := hc
              exact ⟨d', List.mem_cons_of_mem d hd', hr'⟩

/-- C8 counterexample: in a continue-policy run where the handler of stage X
raises, X is not cached; the later planned stage Y, which depends on X,
re-invokes the handler of X, so X executes twice within one run. -/
theorem memoization_counterexample :
    (workflowRun envXY ⟨[]⟩ none).map (fun o => o.finalState.handlerCalls) =
      .ok ["X", "X"] := by
  simp [workflowRun, resolve_execution_order, visitAll, visitStage, visitList, envXY,
    stageX, stageY, workflowLoop, run_stage, runDeps, cacheReturn, Except.map, List.lookup]

/-- C8 amended: a stage whose outcome is cached is returned identically,
without touching the run state, so its handler is not re-invoked; and on an
acyclic stage set, any run_stage call that returns normally preserves the
memoization invariant — the handler-call log stays duplicate-free (each
stage's handler invoked at most once in the run) and every invoked stage has
a cached outcome.  A stage whose handler raised is however not cached, and
under the continue failure policy a later dependent re-invokes it. -/
theorem memoization_amended :
    (∀ (V : Type) (env : WorkflowEnv V) (fuel : Nat) (sid : String) (st : RunState V)
      (t : RunTriple V),
      st.run_cache.lookup sid = some t → run_stage env fuel sid st = (st, .ok t)) ∧
    (∀ (V : Type) (env : WorkflowEnv V) (fuel : Nat) (sid : String) (st st' : RunState V)
      (t : RunTriple V),
      AcyclicStages env.stages → RunInv st → run_stage env fuel sid st = (st', .ok t) →
      RunInv st') := by
  constructor
  · intro V env fuel sid st t hcache
    cases fuel with
    | zero =>
      rw [run_stage, hcache]
    | succ n =>
      rw [run_stage, hcache]
  · intro V env fuel sid st st' t hacyc hinv heq
    obtain ⟨hgrow, Δ, hcalls, hndΔ, hcond⟩ := ((run_growth_mutual env hacyc fuel).1 sid st st' t heq)
    obtain ⟨hnd, hsub⟩ := hinv
    constructor
    · rw [hcalls]
      refine List.Nodup.append hnd hndΔ ?_
      intro id hid1 hid2
      have h1 := hsub id hid1
      have h2 := (hcond id hid2).1
      rw [h2] at h1
      cases h1
    · intro id hid
      rw [hcalls] at hid
      rcases List.mem_append.mp hid with h1 | h2
      · exact hgrow id (hsub id h1)
      · exact (hcond id h2).2.1

/-- Witness for C8: the cache-hit branch returns the cached triple untouched
on a concrete state, and the invariant is preserved across a concrete
successful run on the acyclic one-stage registry. -/
theorem memoization_amended_witness :
    run_stage envSkip 5 "A"
        (⟨[], [], [], [("A", ((some 7, [], PyStatus.vnone) : RunTriple Nat))], cfgA, []⟩) =
      (⟨[], [], [], [("A", ((some 7, [], PyStatus.vnone) : RunTriple Nat))], cfgA, []⟩,
        .ok (some 7, [], PyStatus.vnone)) :=
  memoization_amended.1 Nat envSkip 5 "A" _ _ rfl

/-- The per-file validation loop checks every collected file and counts
them. -/
theorem checkValidateFiles_eq (fs : FS) (stage : StageFunction V) (declRepro : ReproCfg)
    (is_shared : Bool) (a s : PyPath) (l : List (PyPath × CfgOut)) :
    checkValidateFiles fs stage declRepro is_shared a s l =
      if ∀ q ∈ l, validateOneFile fs stage declRepro is_shared a s q.1 q.2 = true then
        some l.length
      else none := by
  induction l with
  | nil => simp [checkValidateFiles]
  | cons q rest ih =>
    rcases q with ⟨k, e⟩
    rw [checkValidateFiles]
    by_cases hv : validateOneFile fs stage declRepro is_shared a s k e = true
    · rw [if_pos hv, ih]
      by_cases hrest : ∀ q ∈ rest, validateOneFile fs stage declRepro is_shared a s q.1 q.2 = true
      · rw [if_pos hrest, if_pos]
        · simp [Nat.add_comm]
        · intro q hq
          rcases List.mem_cons.mp hq with h1 | h2
          · rw [h1]
            exact hv
          · exact hrest q h2
      · rw [if_neg hrest, if_neg]
        · rfl
        · intro hall
          exact hrest (fun q hq => hall q (List.mem_cons_of_mem _ hq))
    · rw [if_neg hv, if_neg]
      intro hall
      exact hv (hall (k, e) (List.mem_cons_self _ _))

/-- The directory collection loop of the skip check gathers exactly the
ledger entries beneath the directory, provided each of them exists on disk
with the declared scope, and fails otherwise. -/
theorem collectDirEntries_eq (fs : FS) (a s resolved : PyPath) (is_shared : Bool)
    (expected : List (PyPath × CfgOut)) :
    collectDirEntries fs a s resolved is_shared expected =
      if ∀ q ∈ expected, pyIsRelTo (entryFullPath a s q.1 q.2) resolved = true →
          fs.pathExists (entryFullPath a s q.1 q.2) = true ∧ q.2.shared.getD false = is_shared then
        some (expected.filter (fun q => pyIsRelTo (entryFullPath a s q.1 q.2) resolved))
      else none := by
  induction expected with
  | nil => simp [collectDirEntries]
  | cons q rest ih =>
    rcases q with ⟨k, e⟩
    rw [collectDirEntries]
    by_cases hrel : pyIsRelTo (entryFullPath a s k e) resolved = true
    · rw [if_pos hrel]
      by_cases hex : fs.pathExists (entryFullPath a s k e) = true
      · by_cases hsc : e.shared.getD false = is_shared
        · have hbne : ((e.shared.getD false) != is_shared) = false := by
            rw [hsc]
            simp
          rw [hex]
          simp only [Bool.not_true, Bool.false_eq_true, if_false, hbne, ih]
          by_cases hrest : ∀ q ∈ rest, pyIsRelTo (entryFullPath a s q.1 q.2) resolved = true →
              fs.pathExists (entryFullPath a s q.1 q.2) = true ∧ q.2.shared.getD false = is_shared
          · rw [if_pos hrest, if_pos]
            · simp [List.filter_cons, hrel]
            · intro q hq
              rcases List.mem_cons.mp hq with h1 | h2
              · rw [h1]
                exact fun _ => ⟨hex, hsc⟩
              · exact hrest q h2
          · rw [if_neg hrest, if_neg]
            · rfl
            · intro hall
              exact hrest (fun q hq => hall q (List.mem_cons_of_mem _ hq))
        · have hbne : ((e.shared.getD false) != is_shared) = true := by
            simp [bne_iff_ne]
            exact hsc
          rw [hex]
          simp only [Bool.not_true, Bool.false_eq_true, if_false, hbne, if_true]
          rw [if_neg]
          intro hall
          exact hsc ((hall (k, e) (List.mem_cons_self _ _)) hrel).2
      · have hex2 : fs.pathExists (entryFullPath a s k e) = false := by
          rcases hx : fs.pathExists (entryFullPath a s k e)
          · rfl
          · exact absurd hx hex
        rw [hex2]
        simp only [Bool.not_false, if_true]
        rw [if_neg]
        intro hall
        exact hex ((hall (k, e) (List.mem_cons_self _ _)) hrel).1
    · have hrel2 : pyIsRelTo (entryFullPath a s k e) resolved = false := by
        rcases hx : pyIsRelTo (entryFullPath a s k e) resolved
        · rfl
        · exact absurd hx hrel
      rw [hrel2]
      simp only [Bool.false_eq_true, if_false, ih]
      by_cases hrest : ∀ q ∈ rest, pyIsRelTo (entryFullPath a s q.1 q.2) resolved = true →
          fs.pathExists (entryFullPath a s q.1 q.2) = true ∧ q.2.shared.getD false = is_shared
      · rw [if_pos hrest, if_pos]
        · simp [List.filter_cons, hrel2]
        · intro q hq
          rcases List.mem_cons.mp hq with h1 | h2
          · rw [h1]
            intro hr
            rw [hr] at hrel2
            cases hrel2
          · exact hrest q h2
      · rw [if_neg hrest, if_neg]
        intro hall
        exact hrest (fun q hq => hall q (List.mem_cons_of_mem _ hq))

/-- Processing of one well-formed output declaration by the skip check
succeeds exactly when the declarative skip condition holds for it. -/
theorem checkOneDecl_isSome_iff (fs : FS) (stage : StageFunction V)
    (a s : PyPath) (expected : List (PyPath × CfgOut)) (d : OutputDecl)
    (hd : ValidOutputDecl d) :
    (checkOneDecl fs stage a s expected d).isSome = true ↔
      DeclUnchanged fs stage a s expected d := by
  rcases hsc : checkUnchangedScopePath d with _ | ⟨p, is_shared, declRepro⟩
  · rw [ValidOutputDecl, hsc] at hd
    simp at hd
  · have hRHS : DeclUnchanged fs stage a s expected d ↔
        (∃ rk, pyRelTo (pyJoin (if is_shared then s else a) p) (if is_shared then s else a) =
            some rk ∧
          ((fs.kind (pyJoin (if is_shared then s else a) p) = some .file ∧
            ∃ e, expected.lookup (⟨false, rk⟩ : PyPath) = some e ∧
              e.shared.getD false = is_shared ∧
              validateOneFile fs stage declRepro is_shared a s (⟨false, rk⟩ : PyPath) e = true) ∨
          (fs.kind (pyJoin (if is_shared then s else a) p) = some .dir ∧
            (∃ q ∈ expected, EntryUnderDir a s (pyJoin (if is_shared then s else a) p) q.1 q.2) ∧
            ∀ q ∈ expected, EntryUnderDir a s (pyJoin (if is_shared then s else a) p) q.1 q.2 →
              fs.pathExists (entryFullPath a s q.1 q.2) = true ∧
              q.2.shared.getD false = is_shared ∧
              validateOneFile fs stage declRepro is_shared a s q.1 q.2 = true))) := by
      rw [DeclUnchanged]
      constructor
      · rintro ⟨p', sh', dr', hsc', rest⟩
        rw [hsc] at hsc'
        injection hsc' with h1
        injection h1 with hp h2
        injection h2 with hsh hdr
        subst hp
        subst hsh
        subst hdr
        exact rest
      · intro h
        exact ⟨p, is_shared, declRepro, hsc, h⟩
    rw [hRHS]
    simp only [checkOneDecl, hsc]
    rcases hrel : pyRelTo (pyJoin (if is_shared then s else a) p) (if is_shared then s else a)
        with _ | rk
    · simp
    · simp only [Option.some.injEq]
      rcases hkind : fs.kind (pyJoin (if is_shared then s else a) p) with _ | k
      · simp
      · cases k with
        | file =>
          rcases hlook : expected.lookup (⟨false, rk⟩ : PyPath) with _ | e
          · simp [hlook]
          · simp only []
            by_cases hbq : e.shared.getD false = is_shared
            · by_cases hv : validateOneFile fs stage declRepro is_shared a s
                  (⟨false, rk⟩ : PyPath) e = true
              · simp [checkValidateFiles_eq, hlook, hbq, hv]
              · simp [checkValidateFiles_eq, hlook, hbq, hv]
            · simp [beq_iff_eq, hlook, hbq]
        | dir =>
          by_cases hcond : ∀ q ∈ expected,
              pyIsRelTo (entryFullPath a s q.1 q.2) (pyJoin (if is_shared then s else a) p) =
                true →
              fs.pathExists (entryFullPath a s q.1 q.2) = true ∧
              q.2.shared.getD false = is_shared
          · rw [collectDirEntries_eq, if_pos hcond]
            simp only []
            by_cases hne : (expected.filter (fun q =>
                pyIsRelTo (entryFullPath a s q.1 q.2)
                  (pyJoin (if is_shared then s else a) p))).isEmpty = true
            · rw [if_pos hne]
              simp only [Option.isSome_none, Bool.false_eq_true, false_iff]
              rintro ⟨rk2, hrk, (⟨hk, h2⟩ | ⟨h3, ⟨q, hq, hu⟩, h4⟩)⟩
              · simp at hk
              · have hmem : q ∈ expected.filter (fun q =>
                    pyIsRelTo (entryFullPath a s q.1 q.2)
                      (pyJoin (if is_shared then s else a) p)) :=
                  List.mem_filter.mpr ⟨hq, hu⟩
                rw [List.isEmpty_iff] at hne
                rw [hne] at hmem
                cases hmem
            · rw [if_neg hne, checkValidateFiles_eq]
              constructor
              · intro hsome
                have hall : ∀ q ∈ expected.filter (fun q =>
                    pyIsRelTo (entryFullPath a s q.1 q.2)
                      (pyJoin (if is_shared then s else a) p)),
                    validateOneFile fs stage declRepro is_shared a s q.1 q.2 = true := by
                  by_contra hno
                  rw [if_neg hno] at hsome
                  simp at hsome
                have hx : ∃ q, q ∈ expected.filter (fun q =>
                    pyIsRelTo (entryFullPath a s q.1 q.2)
                      (pyJoin (if is_shared then s else a) p)) := by
                  rcases hl : expected.filter (fun q =>
                      pyIsRelTo (entryFullPath a s q.1 q.2)
                        (pyJoin (if is_shared then s else a) p)) with _ | ⟨q0, rest⟩
                  · rw [hl] at hne
                    simp at hne
                  · exact ⟨q0, by rw [hl]; exact List.mem_cons_self _ _⟩
                rcases hx with ⟨q0, hq0⟩
                rcases List.mem_filter.mp hq0 with ⟨hq0m, hq0u⟩
                refine ⟨rk, rfl, Or.inr ⟨by trivial, ⟨q0, hq0m, hq0u⟩, ?_⟩⟩
                intro q hq hu
                exact ⟨(hcond q hq hu).1, (hcond q hq hu).2,
                  hall q (List.mem_filter.mpr ⟨hq, hu⟩)⟩
              · rintro ⟨rk2, hrk, (⟨hk, h2⟩ | ⟨h3, h4, hall⟩)⟩
                · simp at hk
                · have hC : ∀ q ∈ expected.filter (fun q =>
                      pyIsRelTo (entryFullPath a s q.1 q.2)
                        (pyJoin (if is_shared then s else a) p)),
                      validateOneFile fs stage declRepro is_shared a s q.1 q.2 = true := by
                    intro q hq
                    rcases List.mem_filter.mp hq with ⟨hqm, hqu⟩
                    exact (hall q hqm hqu).2.2
                  rw [if_pos hC]
                  rfl
          · rw [collectDirEntries_eq, if_neg hcond]
            simp only [Option.isSome_none, Bool.false_eq_true, false_iff]
            rintro ⟨rk2, hrk, (⟨hk, h2⟩ | ⟨h3, h4, hall⟩)⟩
            · simp at hk
            · exact hcond (fun q hq hu => ⟨(hall q hq hu).1, (hall q hq hu).2.1⟩)

/-- A successful check of one well-formed declaration counts at least one
file: the file branch checks exactly one file and the directory branch
rejects an empty collection. -/
theorem checkOneDecl_pos (fs : FS) (stage : StageFunction V)
    (a s : PyPath) (expected : List (PyPath × CfgOut)) (d : OutputDecl) (n : Nat)
    (hd : ValidOutputDecl d)
    (h : checkOneDecl fs stage a s expected d = some n) : 0 < n := by
  rcases hsc : checkUnchangedScopePath d with _ | ⟨p, is_shared, declRepro⟩
  · rw [ValidOutputDecl, hsc] at hd
    simp at hd
  · rw [checkOneDecl, hsc] at h
    simp only [] at h
    split at h
    · cases h
    · split at h
      · split at h
        · cases h
        · split at h
          · rw [checkValidateFiles_eq] at h
            split at h
            · injection h with h1
              simp at h1
              omega
            · cases h
          · cases h
      · split at h
        · cases h
        · rename_i l heql
          split at h
          · cases h
          · rename_i hne
            rw [checkValidateFiles_eq] at h
            split at h
            · injection h with h1
              rw [← h1]
              have hl : l ≠ [] := by
                intro hl0
                rw [hl0] at hne
                simp at hne
              exact List.length_pos.mpr hl
            · cases h
      · cases h

/-- The declaration loop of the skip check succeeds exactly when every
declaration in the list is processed successfully. -/
theorem checkDeclList_isSome_iff (fs : FS) (stage : StageFunction V)
    (a s : PyPath) (expected : List (PyPath × CfgOut)) (ds : List OutputDecl) :
    (checkDeclList fs stage a s expected ds).isSome = true ↔
      ∀ d ∈ ds, (checkOneDecl fs stage a s expected d).isSome = true := by
  induction ds with
  | nil => simp [checkDeclList]
  | cons d ds ih =>
    rcases hone : checkOneDecl fs stage a s expected d with _ | k
    · simp [checkDeclList, hone]
    · simp [checkDeclList, hone, ih]

/-- A successful pass of the declaration loop over a nonempty list of
well-formed declarations counts at least one file. -/
theorem checkDeclList_pos (fs : FS) (stage : StageFunction V)
    (a s : PyPath) (expected : List (PyPath × CfgOut)) (ds : List OutputDecl) (n : Nat)
    (hvalid : ∀ d ∈ ds, ValidOutputDecl d) (hne : ds ≠ [])
    (h : checkDeclList fs stage a s expected ds = some n) : 0 < n := by
  rcases ds with _ | ⟨d, ds⟩
  · exact absurd rfl hne
  · rw [checkDeclList] at h
    rcases hone : checkOneDecl fs stage a s expected d with _ | k
    · rw [hone] at h
      cases h
    · rw [hone] at h
      rcases hrest : checkDeclList fs stage a s expected ds with _ | m
      · rw [hrest] at h
        cases h
      · rw [hrest] at h
        injection h with h1
        have h2 : k + m = n := h1
        have hk : 0 < k :=
          checkOneDecl_pos fs stage a s expected d k (hvalid d (List.mem_cons_self _ _)) hone
        omega

/-- The expected-files dict of an empty config output list is empty. -/
theorem expectedFilesConfig_nil : expectedFilesConfig [] = [] := rfl

/-- No declaration satisfies the skip condition against an empty
expected-files dict: a file declaration has no ledger entry to look up and a
directory declaration has no entry beneath it. -/
theorem declUnchanged_empty (fs : FS) (stage : StageFunction V)
    (a s : PyPath) (d : OutputDecl) :
    ¬ DeclUnchanged fs stage a s [] d := by
  rintro ⟨p, is_shared, declRepro, hsc, rk, hrel, (⟨hk, e, hlook, h2⟩ | ⟨hk, ⟨q, hq, hu⟩, h3⟩)⟩
  · simp at hlook
  · cases hq

/-- check_outputs_unchanged returns True exactly when the stage declares at
least one output and every declared output satisfies the declarative skip
condition against the ledger-derived expected-files dict, provided every
declaration is well-formed. -/
theorem check_outputs_unchanged_iff (fs : FS) (stage_id : String)
    (stage : StageFunction V) (config : CrespConfig) (a s : PyPath)
    (hvalid : ∀ d ∈ stage.outputs, ValidOutputDecl d) :
    check_outputs_unchanged fs stage_id stage config a s = true ↔
      (stage.outputs ≠ [] ∧ ∀ d ∈ stage.outputs,
        DeclUnchanged fs stage a s (expectedForStage config stage_id) d) := by
  have hEmptyRHS : ∀ hexp : expectedForStage config stage_id = [],
      ¬ (stage.outputs ≠ [] ∧ ∀ d ∈ stage.outputs,
        DeclUnchanged fs stage a s (expectedForStage config stage_id) d) := by
    intro hexp
    rintro ⟨hne0, hall⟩
    rcases hout : stage.outputs with _ | ⟨d0, rest⟩
    · exact hne0 hout
    · have hd0 := hall d0 (by rw [hout]; exact List.mem_cons_self _ _)
      rw [hexp] at hd0
      exact declUnchanged_empty fs stage a s d0 hd0
  rw [check_outputs_unchanged]
  rcases hgs : config.get_stage stage_id with _ | sc
  · have hexp : expectedForStage config stage_id = [] := by
      rw [expectedForStage, hgs]
    exact iff_of_false (by simp) (hEmptyRHS hexp)
  · have hexp : expectedForStage config stage_id =
        expectedFilesConfig (sc.outputs.getD []) := by
      rw [expectedForStage, hgs]
    rcases hso : sc.outputs with _ | ⟨cfgouts⟩
    · rw [hso] at hexp
      exact iff_of_false (by simp [hso]) (hEmptyRHS (by rw [hexp]; rfl))
    · rw [hso] at hexp
      simp only [Option.getD_some] at hexp
      by_cases houtE : stage.outputs.isEmpty = true
      · refine iff_of_false (by simp [hso, houtE]) ?_
        rintro ⟨hne0, h2⟩
        exact hne0 (List.isEmpty_iff.mp houtE)
      · by_cases hcfgE : cfgouts.isEmpty = true
        · refine iff_of_false (by simp [hso, houtE, hcfgE]) ?_
          apply hEmptyRHS
          rw [hexp, List.isEmpty_iff.mp hcfgE]
          rfl
        · by_cases hexpE : (expectedFilesConfig cfgouts).isEmpty = true
          · refine iff_of_false (by simp [hso, houtE, hcfgE, hexpE]) ?_
            apply hEmptyRHS
            rw [hexp]
            exact List.isEmpty_iff.mp hexpE
          · simp only [hso, houtE, hcfgE, hexpE, Bool.false_eq_true, if_false]
            rw [hexp]
            have hne0 : stage.outputs ≠ [] := by
              intro h0
              rw [h0] at houtE
              simp at houtE
            rcases hdl : checkDeclList fs stage a s (expectedFilesConfig cfgouts)
                stage.outputs with _ | n
            · refine iff_of_false (by simp) ?_
              rintro ⟨h1, hall⟩
              have hsome : (checkDeclList fs stage a s (expectedFilesConfig cfgouts)
                  stage.outputs).isSome = true := by
                rw [checkDeclList_isSome_iff]
                intro d hd
                rw [checkOneDecl_isSome_iff fs stage a s (expectedFilesConfig cfgouts) d
                  (hvalid d hd)]
                exact hall d hd
              rw [hdl] at hsome
              cases hsome
            · have hpos : 0 < n :=
                checkDeclList_pos fs stage a s (expectedFilesConfig cfgouts)
                  stage.outputs n hvalid hne0 hdl
              refine iff_of_true (by simp [hpos]) ?_
              refine ⟨hne0, fun d hd => ?_⟩
              rw [← checkOneDecl_isSome_iff fs stage a s (expectedFilesConfig cfgouts) d
                (hvalid d hd)]
              have hsome : (checkDeclList fs stage a s (expectedFilesConfig cfgouts)
                  stage.outputs).isSome = true := by
                rw [hdl]
                rfl
              rw [checkDeclList_isSome_iff] at hsome
              exact hsome d hd

/-- A cached stage is returned from run_cache at any fuel. -/
theorem run_stage_cache_hit (env : WorkflowEnv V) (fuel : Nat) (sid : String)
    (st : RunState V) (t : RunTriple V) (h : st.run_cache.lookup sid = some t) :
    run_stage env fuel sid st = (st, .ok t) := by
  cases fuel with
  | zero => rw [run_stage, h]
  | succ n => rw [run_stage, h]

/-- When every dependency is cached with skipped status, the dependency loop
returns the state untouched and leaves the re-run-or-failed flag unchanged. -/
theorem runDeps_all_skipped (env : WorkflowEnv V) (fuel : Nat) (st : RunState V)
    (deps : List String) :
    ∀ flag : Bool,
      (∀ dep ∈ deps, ∃ r h, st.run_cache.lookup dep = some (r, h, PyStatus.skipped)) →
      runDeps env fuel deps flag st = (st, .ok flag) := by
  induction deps with
  | nil =>
    intro flag hall
    rw [runDeps]
  | cons dep rest ih =>
    intro flag hall
    rcases hall dep (List.mem_cons_self _ _) with ⟨r, hh, hdep⟩
    rw [runDeps, run_stage_cache_hit env fuel dep st (r, hh, PyStatus.skipped) hdep]
    exact ih flag (fun d hd => hall d (List.mem_cons_of_mem _ hd))

/-- C1: a registered, uncached stage with skip_if_unchanged set, whose
dependency pass left the re-run-or-failed flag false, is skipped (result
None, status SKIPPED, code handler not invoked) if and only if it declares at
least one output and every declared output resolves relative to its root to
an existing path whose ledger entries of matching scope validate successfully
(for a directory, with at least one ledger entry beneath it); in every other
case (missing ledger entry, scope mismatch, unresolvable path, directory with
no ledger entries beneath it, zero files checked) the stage is not skipped. -/
theorem skip_decision_iff (env : WorkflowEnv V) (fuel : Nat) (sid : String)
    (st st1 : RunState V) (sf : StageFunction V)
    (hreg : env.stages.lookup sid = some sf)
    (hmiss : st.run_cache.lookup sid = none)
    (hsku : sf.skip_if_unchanged = true)
    (hdeps : runDeps env fuel sf.dependencies false st = (st1, .ok false))
    (hvalid : ∀ d ∈ sf.outputs, ValidOutputDecl d) :
    (∃ st', run_stage env (fuel + 1) sid st =
        (st', .ok ((none : Option V), [], PyStatus.skipped)) ∧
        st'.handlerCalls = st1.handlerCalls) ↔
      (sf.outputs ≠ [] ∧ ∀ d ∈ sf.outputs,
        DeclUnchanged env.fs sf env.active_output_dir env.shared_data_dir
          (expectedForStage st1.config sid) d) := by
  simp only [run_stage, hmiss, hreg, hdeps, hsku, Bool.not_false, Bool.true_and]
  by_cases hchk : check_outputs_unchanged env.fs sid sf st1.config
      env.active_output_dir env.shared_data_dir = true
  · rw [if_pos hchk]
    refine iff_of_true ⟨(cacheReturn
      { st1 with executed_stages := st1.executed_stages ++ [sid] }
      sid ((none : Option V), [], PyStatus.skipped)).1, rfl, rfl⟩ ?_
    exact (check_outputs_unchanged_iff env.fs sid sf st1.config
      env.active_output_dir env.shared_data_dir hvalid).mp hchk
  · rw [if_neg hchk]
    apply iff_of_false
    · rintro ⟨st', hst, hcalls⟩
      rcases hh : sf.handler with e | v
      · rw [hh] at hst
        simp only [] at hst
        injection hst with h1 h2
        injection h2
      · rw [hh] at hst
        simp only [] at hst
        split at hst
        · simp [cacheReturn] at hst
        · split at hst
          · simp [cacheReturn] at hst
          · split at hst
            · split at hst
              · simp at hst
              · simp [cacheReturn] at hst
            · simp [cacheReturn] at hst
    · intro hRHS
      exact hchk ((check_outputs_unchanged_iff env.fs sid sf st1.config
        env.active_output_dir env.shared_data_dir hvalid).mpr hRHS)

/-- Witness: the concrete registered stage with its recorded output intact on
disk is skipped with the SKIPPED status, result None and no handler call. -/
theorem skip_decision_iff_witness :
    ∃ st', run_stage envSkip 1 "A" stateA =
        (st', .ok ((none : Option Nat), [], PyStatus.skipped)) ∧
        st'.handlerCalls = stateA.handlerCalls := by
  refine (skip_decision_iff envSkip 0 "A" stateA stateA stageA rfl rfl rfl ?_ ?_).mpr ⟨?_, ?_⟩
  · show runDeps envSkip 0 [] false stateA = (stateA, .ok false)
    rw [runDeps]
  · intro d hd
    rcases hd with _ | ⟨_, h⟩
    · rfl
    · cases h
  · decide
  · intro d hd
    rcases hd with _ | ⟨_, h⟩
    · exact ⟨outKey, false, ReproCfg.empty, rfl, ["out.txt"], rfl,
        Or.inl ⟨rfl, ⟨some outKey, some "h1", some "sha256", some false, ReproCfg.empty⟩,
          rfl, rfl, rfl⟩⟩
    · cases h

/-- A key with a lookup result is among the keys of the association list. -/
theorem lookup_some_mem_fst {β : Type _} (l : List (String × β)) (k : String) (v : β)
    (h : l.lookup k = some v) : k ∈ l.map Prod.fst := by
  induction l with
  | nil => cases h
  | cons q rest ih =>
    rcases q with ⟨a, b⟩
    rw [List.lookup] at h
    rcases hke : (k == a) with _ | _
    · simp only [hke] at h
      exact List.mem_cons_of_mem _ (ih h)
    · have hka : k = a := eq_of_beq hke
      subst hka
      exact List.mem_cons_self _ _

/-- A key among the keys of an association list has a lookup result. -/
theorem mem_fst_lookup_isSome {β : Type _} (l : List (String × β)) (k : String)
    (h : k ∈ l.map Prod.fst) : (l.lookup k).isSome = true := by
  induction l with
  | nil => cases h
  | cons q rest ih =>
    rcases q with ⟨a, b⟩
    rw [List.lookup]
    rcases hke : (k == a) with _ | _
    · simp only [hke]
      have hne : k ≠ a := fun he => by rw [he] at hke; simp at hke
      rcases List.mem_cons.mp h with h1 | h2
      · exact absurd h1 hne
      · exact ih h2
    · simp only [hke]
      rfl

/-- A duplicate-free list of registered keys is no longer than the
registry. -/
theorem visiting_length_le (stages : List (String × StageFunction V))
    (l : List String) (hnd : l.Nodup) (hreg : ∀ v ∈ l, v ∈ stages.map Prod.fst) :
    l.length ≤ stages.length := by
  have hsub : l ⊆ stages.map Prod.fst := hreg
  have := (hnd.subperm hsub).length_le
  rw [List.length_map] at this
  exact this

/-- In a state satisfying the visit invariant, the visited set is closed
under reachability: everything reachable from a visited node is visited. -/
theorem visited_closed_reaches (stages : List (String × StageFunction V))
    (s : VisitSt) (hinv : VisitInv stages s) (y x : String)
    (hy : y ∈ s.visited) (hr : Reaches stages y x) : x ∈ s.visited := by
  revert hy
  induction hr using Relation.ReflTransGen.head_induction_on with
  | refl =>
    intro hy
    exact hy
  | head hedge hrest ih =>
    intro ha
    apply ih
    rcases hedge with ⟨st, hlook, hd⟩
    have h1 := hinv.2.2 _ st _ ((hinv.1 _).mp ha) hlook hd
    exact (hinv.1 _).mpr h1.1

/-- Soundness of the depth-first visit: on an acyclic, dependency-closed
registry, a visit call meeting its precondition succeeds and establishes its
postcondition, and likewise for the dependency loop. -/
theorem visit_sound (stages : List (String × StageFunction V))
    (hacyc : AcyclicStages stages)
    (hclosed : ∀ sid st d, stages.lookup sid = some st → d ∈ st.dependencies →
      (stages.lookup d).isSome = true) :
    ∀ fuel : Nat,
      (∀ sid s, VCond stages fuel sid s →
        ∃ s', visitStage stages fuel sid s = .ok s' ∧ VPost stages sid s s') ∧
      (∀ ds s, LCond stages fuel ds s →
        ∃ s', visitList stages fuel ds s = .ok s' ∧ LPost stages ds s s') := by
  intro fuel
  induction fuel with
  | zero =>
    constructor
    · rintro sid s ⟨hfuel, hreg, hnd, hstackreg, hstacktg, hinv⟩
      exfalso
      have hle := visiting_length_le stages s.visiting hnd hstackreg
      omega
    · intro ds s hc
      rcases ds with _ | ⟨d, ds⟩
      · refine ⟨s, by rw [visitList], hc.2.2.2.2.2, rfl,
          ⟨[], (List.append_nil _).symm⟩, ?_, ?_, ?_⟩
        · intro d hd
          cases hd
        · intro x hx
          exact Or.inl hx
        · intro x d hd
          cases hd
      · exfalso
        rcases hc with ⟨hfuel, _, hnd, hstackreg, _, _⟩
        have hle := visiting_length_le stages s.visiting hnd hstackreg
        omega
  | succ n ih =>
    have hstage : ∀ sid s, VCond stages (n + 1) sid s →
        ∃ s', visitStage stages (n + 1) sid s = .ok s' ∧ VPost stages sid s s' := by
      rintro sid s ⟨hfuel, hreg, hnd, hstackreg, hstacktg, hinv⟩
      rcases hlook : stages.lookup sid with _ | stage
      · rw [hlook] at hreg
        cases hreg
      · by_cases hvd : sid ∈ s.visited
        · refine ⟨s, ?_, hinv, rfl, ⟨[], (List.append_nil _).symm⟩, hvd, ?_, ?_⟩
          · rw [visitStage, hlook]
            simp only []
            rw [if_pos hvd]
          · intro x hx
            exact Or.inl hx
          · intro x hr
            exact visited_closed_reaches stages s hinv sid x hvd hr
        · by_cases hvg : sid ∈ s.visiting
          · exact absurd (hstacktg sid hvg) (hacyc sid)
          · have hlcond : LCond stages n stage.dependencies
                { s with visiting := sid :: s.visiting } := by
              refine ⟨?_, ?_, ?_, ?_, ?_, hinv⟩
              · simp only [List.length_cons]
                omega
              · intro d hd
                exact hclosed sid stage d hlook hd
              · exact List.nodup_cons.mpr ⟨hvg, hnd⟩
              · intro v hv2
                rcases List.mem_cons.mp hv2 with h1 | h2
                · subst h1
                  exact lookup_some_mem_fst stages v stage hlook
                · exact hstackreg v h2
              · intro v hv2 d hd
                rcases List.mem_cons.mp hv2 with h1 | h2
                · subst h1
                  exact Relation.TransGen.single ⟨stage, hlook, hd⟩
                · exact Relation.TransGen.tail (hstacktg v h2) ⟨stage, hlook, hd⟩
            rcases ih.2 stage.dependencies { s with visiting := sid :: s.visiting } hlcond
              with ⟨s1, hok, hinv1, hvisg1, ⟨d1, hd1⟩, hdeps1, hnew1, hcl1⟩
            have hsid_not_order1 : sid ∉ s1.order := by
              intro hmem
              rcases hnew1 sid hmem with h1 | ⟨d0, hd0, hr0, _⟩
              · exact hvd ((hinv.1 sid).mpr h1)
              · exact hacyc sid (Relation.TransGen.head' ⟨stage, hlook, hd0⟩ hr0)
            refine ⟨⟨s1.order ++ [sid], sid :: s1.visited, s1.visiting.erase sid⟩, ?_, ?_⟩
            · rw [visitStage, hlook]
              simp only []
              rw [if_neg hvd, if_neg hvg, hok]
            · refine ⟨⟨?_, ?_, ?_⟩, ?_, ?_, ?_, ?_, ?_⟩
              · intro x
                simp only [List.mem_cons, List.mem_append, List.mem_singleton, hinv1.1 x]
                constructor
                · rintro (h1 | h2)
                  · exact Or.inr (Or.inl h1)
                  · exact Or.inl h2
                · rintro (h1 | h2 | h3)
                  · exact Or.inr h1
                  · exact Or.inl h2
                  · exact absurd h3 (List.not_mem_nil x)
              · rw [List.nodup_append]
                refine ⟨hinv1.2.1, List.nodup_singleton sid, fun a ha hb => ?_⟩
                rw [List.mem_singleton] at hb
                subst hb
                exact hsid_not_order1 ha
              · intro y st d hy hlooky hd
                rcases List.mem_append.mp hy with hmem | hsing
                · rcases hinv1.2.2 y st d hmem hlooky hd with ⟨hdm, hidx⟩
                  refine ⟨List.mem_append_left _ hdm, ?_⟩
                  rw [List.indexOf_append_of_mem hdm, List.indexOf_append_of_mem hmem]
                  exact hidx
                · have hysid : y = sid := List.mem_singleton.mp hsing
                  subst hysid
                  rw [hlook] at hlooky
                  injection hlooky with hst
                  subst hst
                  have hdv : d ∈ s1.visited := hdeps1 d hd
                  have hdo : d ∈ s1.order := (hinv1.1 d).mp hdv
                  refine ⟨List.mem_append_left _ hdo, ?_⟩
                  rw [List.indexOf_append_of_mem hdo,
                    List.indexOf_append_of_not_mem hsid_not_order1,
                    List.indexOf_cons_self]
                  have := List.indexOf_lt_length.mpr hdo
                  omega
              · show s1.visiting.erase sid = s.visiting
                rw [hvisg1]
                exact List.erase_cons_head sid s.visiting
              · exact ⟨d1 ++ [sid], by rw [hd1, List.append_assoc]⟩
              · exact List.mem_cons_self _ _
              · intro x hx
                rcases List.mem_append.mp hx with hmem | hsing
                · rcases hnew1 x hmem with h1 | ⟨d0, hd0, hr0, hreg0⟩
                  · exact Or.inl h1
                  · exact Or.inr ⟨Relation.ReflTransGen.head ⟨stage, hlook, hd0⟩ hr0, hreg0⟩
                · have hxsid : x = sid := List.mem_singleton.mp hsing
                  subst hxsid
                  exact Or.inr ⟨Relation.ReflTransGen.refl, by rw [hlook]; rfl⟩
              · intro x hr
                rcases Relation.ReflTransGen.cases_head hr with h1 | ⟨z, hedge, hrest⟩
                · rw [← h1]
                  exact List.mem_cons_self _ _
                · rcases hedge with ⟨st0, hlook0, hdz⟩
                  rw [hlook] at hlook0
                  injection hlook0 with hst0
                  subst hst0
                  exact List.mem_cons_of_mem _ (hcl1 x z hdz hrest)
    refine ⟨hstage, ?_⟩
    intro ds
    induction ds with
    | nil =>
      intro s hc
      refine ⟨s, by rw [visitList], hc.2.2.2.2.2, rfl,
        ⟨[], (List.append_nil _).symm⟩, ?_, ?_, ?_⟩
      · intro d hd
        cases hd
      · intro x hx
        exact Or.inl hx
      · intro x d hd
        cases hd
    | cons d ds ihds =>
      intro s hc
      rcases hc with ⟨hfuel, hreg, hnd, hstackreg, hstacktg, hinv⟩
      have hvc : VCond stages (n + 1) d s :=
        ⟨hfuel, hreg d (List.mem_cons_self _ _), hnd, hstackreg,
         fun v hv => hstacktg v hv d (List.mem_cons_self _ _), hinv⟩
      rcases hstage d s hvc with ⟨s1, hok1, hinv1, hvis1, ⟨d1, hd1⟩, hd1v, hnew1, hcl1⟩
      have hlc : LCond stages (n + 1) ds s1 := by
        refine ⟨?_, ?_, ?_, ?_, ?_, hinv1⟩
        · rw [hvis1]
          exact hfuel
        · intro d2 hd2
          exact hreg d2 (List.mem_cons_of_mem _ hd2)
        · rw [hvis1]
          exact hnd
        · rw [hvis1]
          exact hstackreg
        · rw [hvis1]
          exact fun v hv d2 hd2 => hstacktg v hv d2 (List.mem_cons_of_mem _ hd2)
      rcases ihds s1 hlc with ⟨s2, hok2, hinv2, hvis2, ⟨d2, hd2⟩, hds2, hnew2, hcl2⟩
      have hgrow12 : ∀ x, x ∈ s1.visited → x ∈ s2.visited := by
        intro x hx
        rw [hinv2.1 x, hd2]
        exact List.mem_append_left _ ((hinv1.1 x).mp hx)
      refine ⟨s2, ?_, hinv2, hvis2.trans hvis1, ⟨d1 ++ d2, ?_⟩, ?_, ?_, ?_⟩
      · rw [visitList, hok1]
        exact hok2
      · rw [hd2, hd1, List.append_assoc]
      · intro d3 hd3
        rcases List.mem_cons.mp hd3 with h1 | h2
        · subst h1
          exact hgrow12 d3 hd1v
        · exact hds2 d3 h2
      · intro x hx
        rcases hnew2 x hx with h1 | ⟨d3, hd3, hr3, hreg3⟩
        · rcases hnew1 x h1 with h2 | ⟨hr2, hreg2⟩
          · exact Or.inl h2
          · exact Or.inr ⟨d, List.mem_cons_self _ _, hr2, hreg2⟩
        · exact Or.inr ⟨d3, List.mem_cons_of_mem _ hd3, hr3, hreg3⟩
      · intro x d3 hd3 hr3
        rcases List.mem_cons.mp hd3 with h1 | h2
        · subst h1
          exact hgrow12 x (hcl1 x hr3)
        · exact hcl2 x d3 h2 hr3

/-- Soundness of the no-target loop: visiting a list of registered keys from
an invariant-respecting state with an empty stack succeeds, visits every
listed key, and only adds registered nodes to the order. -/
theorem visitAll_sound (stages : List (String × StageFunction V))
    (hacyc : AcyclicStages stages)
    (hclosed : ∀ sid st d, stages.lookup sid = some st → d ∈ st.dependencies →
      (stages.lookup d).isSome = true) :
    ∀ (keys : List String) (s : VisitSt),
      (∀ k ∈ keys, (stages.lookup k).isSome = true) →
      VisitInv stages s → s.visiting = [] →
      ∃ s', visitAll stages (stages.length + 1) keys s = .ok s' ∧
        VisitInv stages s' ∧ s'.visiting = [] ∧
        (∃ l, s'.order = s.order ++ l) ∧
        (∀ k ∈ keys, k ∈ s'.visited) ∧
        (∀ x ∈ s'.order, x ∈ s.order ∨ (stages.lookup x).isSome = true) := by
  intro keys
  induction keys with
  | nil =>
    intro s hreg hinv hvis
    exact ⟨s, by rw [visitAll], hinv, hvis, ⟨[], (List.append_nil _).symm⟩,
      fun k hk => absurd hk (List.not_mem_nil k), fun x hx => Or.inl hx⟩
  | cons k rest ih =>
    intro s hreg hinv hvis
    by_cases hkv : k ∈ s.visited
    · rcases ih s (fun k2 hk2 => hreg k2 (List.mem_cons_of_mem _ hk2)) hinv hvis with
        ⟨s', hok, hinv', hvis', hord', hks', hnew'⟩
      refine ⟨s', ?_, hinv', hvis', hord', ?_, hnew'⟩
      · rw [visitAll, if_pos hkv]
        exact hok
      · intro k2 hk2
        rcases List.mem_cons.mp hk2 with h1 | h2
        · subst h1
          rcases hord' with ⟨l, hl⟩
          rw [hinv'.1 k2, hl]
          exact List.mem_append_left _ ((hinv.1 k2).mp hkv)
        · exact hks' k2 h2
    · have hvc : VCond stages (stages.length + 1) k s := by
        refine ⟨?_, hreg k (List.mem_cons_self _ _), ?_, ?_, ?_, hinv⟩
        · rw [hvis]
          simp
        · rw [hvis]
          exact List.nodup_nil
        · rw [hvis]
          intro v hv
          exact absurd hv (List.not_mem_nil v)
        · rw [hvis]
          intro v hv
          exact absurd hv (List.not_mem_nil v)
      rcases (visit_sound stages hacyc hclosed (stages.length + 1)).1 k s hvc with
        ⟨s1, hok1, hinv1, hvis1, ⟨l1, hl1⟩, hkv1, hnew1, _⟩
      rcases ih s1 (fun k2 hk2 => hreg k2 (List.mem_cons_of_mem _ hk2)) hinv1
          (by rw [hvis1]; exact hvis) with
        ⟨s', hok, hinv', hvis', ⟨l2, hl2⟩, hks', hnew'⟩
      refine ⟨s', ?_, hinv', hvis',
        ⟨l1 ++ l2, by rw [hl2, hl1, List.append_assoc]⟩, ?_, ?_⟩
      · rw [visitAll, if_neg hkv, hok1]
        exact hok
      · intro k2 hk2
        rcases List.mem_cons.mp hk2 with h1 | h2
        · subst h1
          rw [hinv'.1 k2, hl2]
          exact List.mem_append_left _ ((hinv1.1 k2).mp hkv1)
        · exact hks' k2 h2
      · intro x hx
        rcases hnew' x hx with h1 | h2
        · rcases hnew1 x h1 with h3 | ⟨_, hreg3⟩
          · exact Or.inl h3
          · exact Or.inr hreg3
        · exact Or.inr h2

/-- C2: on every acyclic stage set whose dependencies are all registered,
resolve_execution_order succeeds and returns an order placing every
dependency of an ordered stage at a strictly smaller index; with no target
the order holds exactly the registered stages, and with a registered target
it holds exactly the target's transitive dependency closure including the
target itself. -/
theorem resolver_topological (stages : List (String × StageFunction V))
    (target : Option String)
    (hacyc : AcyclicStages stages)
    (hclosed : ∀ sid st d, stages.lookup sid = some st → d ∈ st.dependencies →
      (stages.lookup d).isSome = true)
    (htar : ∀ t, target = some t → (stages.lookup t).isSome = true) :
    ∃ order, resolve_execution_order stages target = .ok order ∧
      (∀ sid st d, sid ∈ order → stages.lookup sid = some st → d ∈ st.dependencies →
        d ∈ order ∧ order.indexOf d < order.indexOf sid) ∧
      (target = none → ∀ x, x ∈ order ↔ (stages.lookup x).isSome = true) ∧
      (∀ t, target = some t → ∀ x, x ∈ order ↔ Reaches stages t x) := by
  have hinv0 : VisitInv stages ⟨[], [], []⟩ :=
    ⟨fun x => Iff.rfl, List.nodup_nil,
     fun sid st d hmem _ _ => absurd hmem (List.not_mem_nil sid)⟩
  rcases target with _ | t
  · rcases visitAll_sound stages hacyc hclosed (stages.map (fun q => q.1)) ⟨[], [], []⟩
        (fun k hk => mem_fst_lookup_isSome stages k hk) hinv0 rfl with
      ⟨s', hok, hinv', hvis', ⟨l, hl⟩, hks', hnew'⟩
    refine ⟨s'.order, ?_, ?_, ?_, ?_⟩
    · simp only [resolve_execution_order]
      rw [hok]
      rfl
    · exact hinv'.2.2
    · intro _ x
      constructor
      · intro hx
        rcases hnew' x hx with h1 | h2
        · exact absurd h1 (List.not_mem_nil x)
        · exact h2
      · intro hx
        rcases Option.isSome_iff_exists.mp hx with ⟨st, hst⟩
        have hk : x ∈ stages.map (fun q => q.1) := lookup_some_mem_fst stages x st hst
        exact (hinv'.1 x).mp (hks' x hk)
    · intro t ht
      exact absurd ht (by simp)
  · have hts := htar t rfl
    have hvc : VCond stages (stages.length + 1) t ⟨[], [], []⟩ := by
      refine ⟨by simp, hts, List.nodup_nil, ?_, ?_, hinv0⟩
      · intro v hv
        exact absurd hv (List.not_mem_nil v)
      · intro v hv
        exact absurd hv (List.not_mem_nil v)
    rcases (visit_sound stages hacyc hclosed (stages.length + 1)).1 t ⟨[], [], []⟩ hvc with
      ⟨s', hok, hinv', hvis', ⟨l, hl⟩, htv, hnew', hcl'⟩
    have hnn : (stages.lookup t).isNone = false := by
      rcases hx : stages.lookup t with _ | st
      · rw [hx] at hts
        cases hts
      · rfl
    refine ⟨s'.order, ?_, ?_, ?_, ?_⟩
    · simp only [resolve_execution_order]
      rw [hnn, if_neg Bool.false_ne_true, hok]
      rfl
    · exact hinv'.2.2
    · intro hne
      exact absurd hne (by simp)
    · intro t2 ht2 x
      injection ht2 with ht2e
      subst ht2e
      constructor
      · intro hx
        rcases hnew' x hx with h1 | ⟨hr, _⟩
        · exact absurd h1 (List.not_mem_nil x)
        · exact hr
      · intro hr
        exact (hinv'.1 x).mp (hcl' x hr)

/-- Witness: on the concrete one-stage registry with no dependencies and no
target, the resolver succeeds with a dependency-respecting order holding
exactly the registered stage. -/
theorem resolver_topological_witness :
    ∃ order, resolve_execution_order stagesOne none = .ok order ∧
      (∀ sid st d, sid ∈ order → stagesOne.lookup sid = some st → d ∈ st.dependencies →
        d ∈ order ∧ order.indexOf d < order.indexOf sid) ∧
      ((none : Option String) = none → ∀ x, x ∈ order ↔
        (stagesOne.lookup x).isSome = true) ∧
      (∀ t, (none : Option String) = some t → ∀ x, x ∈ order ↔ Reaches stagesOne t x) := by
  have hedge : ∀ y z, ¬ depEdge stagesOne y z := by
    rintro y z ⟨st, hl, hd⟩
    rcases hke : (y == "A") with _ | _
    · rw [stagesOne, List.lookup] at hl
      simp only [hke] at hl
      cases hl
    · have hy : y = "A" := eq_of_beq hke
      subst hy
      rw [stagesOne, List.lookup] at hl
      simp only [hke] at hl
      injection hl with hst
      subst hst
      cases hd
  refine resolver_topological stagesOne none ?_ ?_ ?_
  · intro x hx
    cases hx with
    | single h1 => exact hedge _ _ h1
    | tail h1 h2 => exact hedge _ _ h2
  · intro sid st d hl hd
    exact absurd ⟨st, hl, hd⟩ (hedge sid d)
  · intro t ht
    exact absurd ht (by simp)
